import Mathlib

/-!
# OIDC configuration accessors of PhotoPrism (`internal/config/config_oidc.go`)

A shallow embedding of the OIDC accessors of `Config` together with the parts of the Go
standard library they call (`unicode/utf8`, `strings`, `fmt`, `net/url`, as of Go 1.22),
followed by theorems about them.

Conventions of the embedding:

* a Go `string` is an arbitrary sequence of bytes, here `GoString = List Byte`;
* a Go pointer that may be `nil` is an `Option`;
* a Go call that may panic returns `Except Panic _`;
* a Go `(value, error)` pair is a Lean pair whose second component is an `Option` error
  (the unexported `parse`, all of whose `return`s are `nil, err` or `url, nil`, is an
  `Except`);
* `log.Errorf` appends a record to an explicit list of log records.
-/

set_option autoImplicit false
set_option maxRecDepth 100000

/-- A Go `byte` (`uint8`). -/
abbrev Byte := Fin 256

/-- A Go `string`: an immutable sequence of bytes, not necessarily valid UTF-8. -/
abbrev GoString := List Byte

/-- Go's conversion `byte(n)` of an unsigned integer: truncation to the low 8 bits. -/
def byte (n : Nat) : Byte := ⟨n % 256, Nat.mod_lt n (by decide)⟩

/-- A run-time panic, with the message the Go runtime or library reports. -/
inductive Panic where
  | nilDereference
  | msg (text : String)
  deriving DecidableEq, Repr

deriving instance DecidableEq for Except

/-! ## `unicode/utf8` -/

namespace utf8

def RuneError : Nat := 0xFFFD
def RuneSelf : Nat := 0x80
def MaxRune : Nat := 0x10FFFF

def surrogateMin : Nat := 0xD800
def surrogateMax : Nat := 0xDFFF

def tx : Nat := 0x80
def t2 : Nat := 0xC0
def t3 : Nat := 0xE0
def t4 : Nat := 0xF0

def maskx : Nat := 0x3F

def rune1Max : Nat := 2 ^ 7 - 1
def rune2Max : Nat := 2 ^ 11 - 1
def rune3Max : Nat := 2 ^ 16 - 1

def locb : Nat := 0x80
def hicb : Nat := 0xBF

def xx : Nat := 0xF1
def as : Nat := 0xF0
def s1 : Nat := 0x02
def s2 : Nat := 0x13
def s3 : Nat := 0x03
def s4 : Nat := 0x23
def s5 : Nat := 0x34
def s6 : Nat := 0x04
def s7 : Nat := 0x44

/-- The table `first`: information about the first byte of a UTF-8 sequence. -/
def first : List Nat := [
  as, as, as, as, as, as, as, as, as, as, as, as, as, as, as, as, -- 0x00-0x0F
  as, as, as, as, as, as, as, as, as, as, as, as, as, as, as, as, -- 0x10-0x1F
  as, as, as, as, as, as, as, as, as, as, as, as, as, as, as, as, -- 0x20-0x2F
  as, as, as, as, as, as, as, as, as, as, as, as, as, as, as, as, -- 0x30-0x3F
  as, as, as, as, as, as, as, as, as, as, as, as, as, as, as, as, -- 0x40-0x4F
  as, as, as, as, as, as, as, as, as, as, as, as, as, as, as, as, -- 0x50-0x5F
  as, as, as, as, as, as, as, as, as, as, as, as, as, as, as, as, -- 0x60-0x6F
  as, as, as, as, as, as, as, as, as, as, as, as, as, as, as, as, -- 0x70-0x7F
  xx, xx, xx, xx, xx, xx, xx, xx, xx, xx, xx, xx, xx, xx, xx, xx, -- 0x80-0x8F
  xx, xx, xx, xx, xx, xx, xx, xx, xx, xx, xx, xx, xx, xx, xx, xx, -- 0x90-0x9F
  xx, xx, xx, xx, xx, xx, xx, xx, xx, xx, xx, xx, xx, xx, xx, xx, -- 0xA0-0xAF
  xx, xx, xx, xx, xx, xx, xx, xx, xx, xx, xx, xx, xx, xx, xx, xx, -- 0xB0-0xBF
  xx, xx, s1, s1, s1, s1, s1, s1, s1, s1, s1, s1, s1, s1, s1, s1, -- 0xC0-0xCF
  s1, s1, s1, s1, s1, s1, s1, s1, s1, s1, s1, s1, s1, s1, s1, s1, -- 0xD0-0xDF
  s2, s3, s3, s3, s3, s3, s3, s3, s3, s3, s3, s3, s3, s4, s3, s3, -- 0xE0-0xEF
  s5, s6, s6, s6, s7, xx, xx, xx, xx, xx, xx, xx, xx, xx, xx, xx] -- 0xF0-0xFF

/-- An entry of `acceptRanges`: the range of valid values for the second byte. -/
structure acceptRange where
  lo : Nat
  hi : Nat
  deriving DecidableEq, Repr

/-- The table `acceptRanges`; it has size 16, the entries after the fifth are zero. -/
def acceptRanges : List acceptRange := [
  ⟨locb, hicb⟩, ⟨0xA0, hicb⟩, ⟨locb, 0x9F⟩, ⟨0x90, hicb⟩, ⟨locb, 0x8F⟩,
  ⟨0, 0⟩, ⟨0, 0⟩, ⟨0, 0⟩, ⟨0, 0⟩, ⟨0, 0⟩, ⟨0, 0⟩, ⟨0, 0⟩, ⟨0, 0⟩, ⟨0, 0⟩, ⟨0, 0⟩, ⟨0, 0⟩]

/-- Byte `s[i]` of a string as an unsigned number (only used with `i` in range). -/
def byteAt (s : GoString) (i : Nat) : Nat := (s.getD i 0).val

/-- The number of bytes the loop body of `RuneCountInString` advances by, where `s` is the
part of the string that starts at the current index `i` (so `s` is not empty and
`i + size > ns` reads `size > s.length`). -/
def runeStep (s : GoString) : Nat :=
  let c := byteAt s 0
  if c < RuneSelf then 1 -- ASCII fast path
  else
    let x := first.getD c 0
    if x = xx then 1 -- invalid
    else
      let size := x &&& 7
      if size > s.length then 1 -- short or invalid
      else
        let accept := acceptRanges.getD (x >>> 4) ⟨0, 0⟩
        if byteAt s 1 < accept.lo ∨ accept.hi < byteAt s 1 then 1
        else if size = 2 then size
        else if byteAt s 2 < locb ∨ hicb < byteAt s 2 then 1
        else if size = 3 then size
        else if byteAt s 3 < locb ∨ hicb < byteAt s 3 then 1
        else size

/-- The loop of `RuneCountInString`; every iteration consumes at least one byte, so
`fuel = len(s)` iterations always suffice. `s` is the rest of the string, `n` the count. -/
def runeCountLoop : Nat → GoString → Nat → Nat
  | 0, _, n => n
  | _ + 1, [], n => n
  | fuel + 1, c :: rest, n => runeCountLoop fuel ((c :: rest).drop (runeStep (c :: rest))) (n + 1)

/-- `utf8.RuneCountInString(s)`: the number of runes in `s`; erroneous and short encodings
are treated as single runes of width 1 byte. -/
def RuneCountInString (s : GoString) : Nat := runeCountLoop s.length s 0

/-- `utf8.AppendRune(p, r)` for a non-negative `r`: appends the UTF-8 encoding of `r`. -/
def AppendRune (p : GoString) (r : Nat) : GoString :=
  if r ≤ rune1Max then p ++ [byte r]
  else if r ≤ rune2Max then
    p ++ [byte (t2 ||| (r >>> 6) % 256), byte (tx ||| (r % 256 &&& maskx))]
  else if r > MaxRune ∨ (surrogateMin ≤ r ∧ r ≤ surrogateMax) then
    p ++ [byte (t3 ||| (RuneError >>> 12) % 256), byte (tx ||| ((RuneError >>> 6) % 256 &&& maskx)),
      byte (tx ||| (RuneError % 256 &&& maskx))]
  else if r ≤ rune3Max then
    p ++ [byte (t3 ||| (r >>> 12) % 256), byte (tx ||| ((r >>> 6) % 256 &&& maskx)),
      byte (tx ||| (r % 256 &&& maskx))]
  else
    p ++ [byte (t4 ||| (r >>> 18) % 256), byte (tx ||| ((r >>> 12) % 256 &&& maskx)),
      byte (tx ||| ((r >>> 6) % 256 &&& maskx)), byte (tx ||| (r % 256 &&& maskx))]

end utf8

/-- The Go string holding the text `t`: the UTF-8 encoding of its code points, which is
how Go source represents a string literal and how `string([]rune)` builds a string. -/
def GoString.ofText (t : String) : GoString :=
  t.data.foldl (fun p c => utf8.AppendRune p c.toNat) []

/-- A Go string literal. -/
abbrev str (t : String) : GoString := GoString.ofText t

/-- A Go character literal used as a byte, such as `'%'`. -/
abbrev chr (c : Char) : Byte := byte c.toNat

/-! ## `strings` and `fmt` -/

namespace strings

/-- `strings.HasPrefix(s, prefix)`: `len(s) >= len(prefix) && s[:len(prefix)] == prefix`. -/
def HasPrefix (s pre : GoString) : Bool :=
  decide (s.length ≥ pre.length) && decide (s.take pre.length = pre)

/-- `strings.HasSuffix(s, suffix)`:
`len(s) >= len(suffix) && s[len(s)-len(suffix):] == suffix`. -/
def HasSuffix (s suf : GoString) : Bool :=
  decide (s.length ≥ suf.length) && decide (s.drop (s.length - suf.length) = suf)

/-- Search loop of `Index`: `s` is the part of the string from index `i` on. -/
def indexLoop : GoString → GoString → Nat → Int
  | [], substr, i => if substr = [] then (i : Int) else -1
  | c :: rest, substr, i =>
    if HasPrefix (c :: rest) substr then (i : Int) else indexLoop rest substr (i + 1)

/-- `strings.Index(s, substr)`: the index of the first instance of `substr` in `s`, or -1
if `substr` is not present in `s`. -/
def Index (s substr : GoString) : Int := indexLoop s substr 0

/-- Search loop of `LastIndex`: `s` is the part of the string from index `i` on, `last`
the index of the last instance found before `i` (or -1). -/
def lastIndexLoop : GoString → GoString → Nat → Int → Int
  | [], substr, i, last => if substr = [] then (i : Int) else last
  | c :: rest, substr, i, last =>
    lastIndexLoop rest substr (i + 1) (if HasPrefix (c :: rest) substr then (i : Int) else last)

/-- `strings.LastIndex(s, substr)`: the index of the last instance of `substr` in `s`, or
-1 if `substr` is not present in `s`. -/
def LastIndex (s substr : GoString) : Int := lastIndexLoop s substr 0 (-1)

/-- `strings.Contains(s, substr)`: `Index(s, substr) >= 0`. -/
def Contains (s substr : GoString) : Bool := decide (Index s substr ≥ 0)

/-- `strings.Cut(s, sep)`: slices `s` around the first instance of `sep`. -/
def Cut (s sep : GoString) : GoString × GoString × Bool :=
  let i := Index s sep
  if i ≥ 0 then (s.take i.toNat, s.drop (i.toNat + sep.length), true)
  else (s, [], false)

/-- Loop of `Count` for a separator of two or more bytes: counts non-overlapping instances.
Every iteration removes at least `len(substr)` bytes, so `fuel = len(s) + 1` suffices. -/
def countLoop : Nat → GoString → GoString → Nat → Nat
  | 0, _, _, n => n
  | fuel + 1, s, substr, n =>
    let i := Index s substr
    if i = -1 then n else countLoop fuel (s.drop (i.toNat + substr.length)) substr (n + 1)

/-- `strings.Count(s, substr)`: the number of non-overlapping instances of `substr` in `s`;
for an empty `substr` it is 1 + the number of runes in `s`. A one-byte `substr` is counted
byte by byte (`bytealg.CountString`). -/
def Count (s substr : GoString) : Nat :=
  match substr with
  | [] => utf8.RuneCountInString s + 1
  | [c] => s.count c
  | _ => countLoop (s.length + 1) s substr 0

/-- `strings.ToLower(s)` on a string of ASCII bytes (Go takes a byte-wise path when `s` has
no byte `>= 0x80`; bytes `>= 0x80` are left alone here, the Unicode path is not modelled). -/
def ToLower (s : GoString) : GoString :=
  s.map (fun c => if 65 ≤ c.val ∧ c.val ≤ 90 then byte (c.val + (97 - 65)) else c)

/-- `strings.Repeat(s, count)`: `count` copies of `s`; panics if `count` is negative. The
guard against `len(s) * count` overflowing an `int` has no counterpart here, where an
`int` is an unbounded integer. -/
def Repeat (s : GoString) (count : Int) : Except Panic GoString :=
  if count = 0 then .ok []
  else if count = 1 then .ok s
  else if count < 0 then .error (.msg "strings: negative Repeat count")
  else .ok (List.replicate count.toNat s).flatten

end strings

namespace fmt

/-- `fmt.Sprintf("%t", b)`: the word `true` or `false`. -/
def Sprintf_t (b : Bool) : GoString :=
  if b then GoString.ofText "true" else GoString.ofText "false"

end fmt

/-! ## `net/url` -/

namespace url

/-- The `error` values that `net/url` creates while parsing. -/
inductive error where
  /-- The value `errors.New(text)`. -/
  | New (text : String)
  /-- The value `EscapeError(s)`: invalid URL escape `s`. -/
  | EscapeError (s : GoString)
  /-- The value `InvalidHostError(s)`: invalid character `s` in host name. -/
  | InvalidHostError (s : GoString)
  /-- The value `fmt.Errorf("invalid port %q after host", colonPort)`. -/
  | invalidPort (colonPort : GoString)
  deriving DecidableEq, Repr

/-- The type `url.Error`: the operation, the URL and the error that caused the failure. -/
structure Error where
  Op : String
  URL : GoString
  Err : error
  deriving DecidableEq, Repr

/-- The type `url.Userinfo`. -/
structure Userinfo where
  username : GoString := []
  password : GoString := []
  passwordSet : Bool := false
  deriving DecidableEq, Repr

/-- The type `url.URL`; the default value of every field is its Go zero value, so `{}`
is `url.URL{}`. -/
structure URL where
  Scheme : GoString := []
  Opaque : GoString := []
  User : Option Userinfo := none
  Host : GoString := []
  Path : GoString := []
  RawPath : GoString := []
  OmitHost : Bool := false
  ForceQuery : Bool := false
  RawQuery : GoString := []
  Fragment : GoString := []
  RawFragment : GoString := []
  deriving DecidableEq, Repr

/-- The type `encoding`: the part of the URL a string is escaped for. -/
inductive encoding where
  | encodePath
  | encodePathSegment
  | encodeHost
  | encodeZone
  | encodeUserPassword
  | encodeQueryComponent
  | encodeFragment
  deriving DecidableEq, Repr

open encoding

def upperhex : GoString := str "0123456789ABCDEF"

def ishex (c : Byte) : Bool :=
  if chr '0' ≤ c ∧ c ≤ chr '9' then true
  else if chr 'a' ≤ c ∧ c ≤ chr 'f' then true
  else if chr 'A' ≤ c ∧ c ≤ chr 'F' then true
  else false

def unhex (c : Byte) : Byte :=
  if chr '0' ≤ c ∧ c ≤ chr '9' then byte (c.val - (chr '0').val)
  else if chr 'a' ≤ c ∧ c ≤ chr 'f' then byte (c.val - (chr 'a').val + 10)
  else if chr 'A' ≤ c ∧ c ≤ chr 'F' then byte (c.val - (chr 'A').val + 10)
  else 0

/-- `shouldEscape(c, mode)`: whether byte `c` must be escaped when it appears in the part
`mode` of a URL. Byte 39 is the single quote and byte 34 the double quote. -/
def shouldEscape (c : Byte) (mode : encoding) : Bool :=
  -- §2.3 Unreserved characters (alphanum)
  if (chr 'a' ≤ c ∧ c ≤ chr 'z') ∨ (chr 'A' ≤ c ∧ c ≤ chr 'Z') ∨ (chr '0' ≤ c ∧ c ≤ chr '9') then
    false
  else if (mode = encodeHost ∨ mode = encodeZone) ∧
      c ∈ [chr '!', chr '$', chr '&', 39, chr '(', chr ')', chr '*', chr '+', chr ',', chr ';',
        chr '=', chr ':', chr '[', chr ']', chr '<', chr '>', 34] then
    false
  else if c ∈ [chr '-', chr '_', chr '.', chr '~'] then -- §2.3 Unreserved characters (mark)
    false
  else if c ∈ [chr '$', chr '&', chr '+', chr ',', chr '/', chr ':', chr ';', chr '=', chr '?',
      chr '@'] ∧ mode = encodePath then
    c = chr '?'
  else if c ∈ [chr '$', chr '&', chr '+', chr ',', chr '/', chr ':', chr ';', chr '=', chr '?',
      chr '@'] ∧ mode = encodePathSegment then
    c = chr '/' ∨ c = chr ';' ∨ c = chr ',' ∨ c = chr '?'
  else if c ∈ [chr '$', chr '&', chr '+', chr ',', chr '/', chr ':', chr ';', chr '=', chr '?',
      chr '@'] ∧ mode = encodeUserPassword then
    c = chr '@' ∨ c = chr '/' ∨ c = chr '?' ∨ c = chr ':'
  else if c ∈ [chr '$', chr '&', chr '+', chr ',', chr '/', chr ':', chr ';', chr '=', chr '?',
      chr '@'] ∧ mode = encodeQueryComponent then
    true
  else if c ∈ [chr '$', chr '&', chr '+', chr ',', chr '/', chr ':', chr ';', chr '=', chr '?',
      chr '@'] ∧ mode = encodeFragment then
    false
  else if mode = encodeFragment ∧ c ∈ [chr '!', chr '(', chr ')', chr '*'] then
    false
  else
    -- Everything else must be escaped.
    true

/-- First loop of `unescape`: counts the `%` and checks that they are well-formed. `s` is
the part of the string from the current index on, `n` and `hasPlus` are the loop variables;
the result is their final value or the error returned from inside the loop. -/
def unescapeCheck (mode : encoding) : GoString → Nat → Bool → Except error (Nat × Bool)
  | [], n, hasPlus => .ok (n, hasPlus)
  | c :: rest, n, hasPlus =>
    if c = chr '%' then
      match rest with
      | h1 :: h2 :: rest2 =>
        if !ishex h1 || !ishex h2 then .error (.EscapeError ((c :: rest).take 3))
        -- in the host component %-encoding can only be used for non-ASCII bytes,
        -- except for %25 in IPv6 scoped-address literals
        else if mode = encodeHost ∧ unhex h1 < 8 ∧ [c, h1, h2] ≠ str "%25" then
          .error (.EscapeError [c, h1, h2])
        else if mode = encodeZone ∧ [c, h1, h2] ≠ str "%25"
            ∧ byte (((unhex h1).val <<< 4) % 256 ||| (unhex h2).val) ≠ chr ' '
            ∧ shouldEscape (byte (((unhex h1).val <<< 4) % 256 ||| (unhex h2).val)) encodeHost then
          .error (.EscapeError [c, h1, h2])
        else unescapeCheck mode rest2 (n + 1) hasPlus
      | _ => .error (.EscapeError ((c :: rest).take 3)) -- i+2 >= len(s)
    else if c = chr '+' then
      unescapeCheck mode rest n (decide (mode = encodeQueryComponent))
    else if (mode = encodeHost ∨ mode = encodeZone) ∧ c.val < 0x80 ∧ shouldEscape c encodeHost then
      .error (.InvalidHostError [c])
    else unescapeCheck mode rest n hasPlus

/-- Second loop of `unescape`: builds the unescaped string. It runs after `unescapeCheck`
succeeded, so every `%` is followed by two bytes; the branch for a `%` with fewer bytes
after it (an index out of range in Go) is never reached. -/
def unescapeBuild (mode : encoding) : GoString → GoString
  | [] => []
  | c :: rest =>
    if c = chr '%' then
      match rest with
      | h1 :: h2 :: rest2 =>
        byte (((unhex h1).val <<< 4) % 256 ||| (unhex h2).val) :: unescapeBuild mode rest2
      | _ => []
    else if c = chr '+' then
      (if mode = encodeQueryComponent then chr ' ' else chr '+') :: unescapeBuild mode rest
    else c :: unescapeBuild mode rest

/-- `unescape(s, mode)`: unescapes a string; the mode specifies which section of the URL
string is being unescaped. -/
def unescape (s : GoString) (mode : encoding) : GoString × Option error :=
  match unescapeCheck mode s 0 false with
  | .error err => ([], some err)
  | .ok (n, hasPlus) =>
    if n = 0 ∧ !hasPlus then (s, none)
    else (unescapeBuild mode s, none)

/-- `escape(s, mode)`: escapes the bytes of `s` that `shouldEscape` in `mode`, as `%XX`
(or `+` for a space in a query component). -/
def escape (s : GoString) (mode : encoding) : GoString :=
  let spaceCount :=
    s.countP (fun c => shouldEscape c mode && decide (c = chr ' ' ∧ mode = encodeQueryComponent))
  let hexCount :=
    s.countP (fun c => shouldEscape c mode && !decide (c = chr ' ' ∧ mode = encodeQueryComponent))
  if spaceCount = 0 ∧ hexCount = 0 then s
  else if hexCount = 0 then s.map (fun c => if c = chr ' ' then chr '+' else c)
  else
    s.flatMap (fun c =>
      if c = chr ' ' ∧ mode = encodeQueryComponent then [chr '+']
      else if shouldEscape c mode then
        [chr '%', upperhex.getD (c.val >>> 4) 0, upperhex.getD (c.val &&& 15) 0]
      else [c])

/-- Loop of `getScheme`: `s` is the part of `rawURL` from index `i` on. -/
def getSchemeLoop (rawURL : GoString) : GoString → Nat → GoString × GoString × Option error
  | [], _ => ([], rawURL, none)
  | c :: rest, i =>
    if (chr 'a' ≤ c ∧ c ≤ chr 'z') ∨ (chr 'A' ≤ c ∧ c ≤ chr 'Z') then
      getSchemeLoop rawURL rest (i + 1) -- do nothing
    else if (chr '0' ≤ c ∧ c ≤ chr '9') ∨ c = chr '+' ∨ c = chr '-' ∨ c = chr '.' then
      if i = 0 then ([], rawURL, none) else getSchemeLoop rawURL rest (i + 1)
    else if c = chr ':' then
      if i = 0 then ([], [], some (.New "missing protocol scheme"))
      else (rawURL.take i, rawURL.drop (i + 1), none)
    else
      -- we have encountered an invalid character, so there is no valid scheme
      ([], rawURL, none)

/-- `getScheme(rawURL)`: splits off a possible leading scheme such as `http:`. -/
def getScheme (rawURL : GoString) : GoString × GoString × Option error :=
  getSchemeLoop rawURL rawURL 0

/-- `stringContainsCTLByte(s)`: whether `s` contains any ASCII control character. -/
def stringContainsCTLByte (s : GoString) : Bool :=
  s.any (fun b => decide (b < chr ' ' ∨ b = 0x7f))

/-- `validOptionalPort(port)`: whether `port` is either an empty string or matches
`:[0-9]*`. Go ranges over the runes of `port[1:]`; a rune that starts at a byte `>= 0x80`
is greater than `'9'`, as that byte is, so testing the bytes gives the same answer. -/
def validOptionalPort (port : GoString) : Bool :=
  match port with
  | [] => true
  | c :: rest =>
    if c ≠ chr ':' then false
    else rest.all (fun b => !decide (b < chr '0' ∨ b > chr '9'))

/-- `validUserinfo(s)`: whether `s` is a valid userinfo string per RFC 3986. Go ranges over
the runes of `s`; a rune that starts at a byte `>= 0x80` is rejected, as that byte is, so
testing the bytes gives the same answer. Byte 39 is the single quote. -/
def validUserinfo (s : GoString) : Bool :=
  s.all (fun r =>
    if chr 'A' ≤ r ∧ r ≤ chr 'Z' then true
    else if chr 'a' ≤ r ∧ r ≤ chr 'z' then true
    else if chr '0' ≤ r ∧ r ≤ chr '9' then true
    else if r ∈ [chr '-', chr '.', chr '_', chr ':', chr '~', chr '!', chr '$', chr '&', 39,
        chr '(', chr ')', chr '*', chr '+', chr ',', chr ';', chr '=', chr '%', chr '@'] then true
    else false)

/-- `parseHost(host)`: parses `host` as an authority without user information, that is as
`host[:port]`. -/
def parseHost (host : GoString) : GoString × Option error :=
  if strings.HasPrefix host [chr '['] then
    -- Parse an IP-Literal in RFC 3986 and RFC 6874.
    let i := strings.LastIndex host [chr ']']
    if i < 0 then ([], some (.New "missing ']' in host"))
    else
      let colonPort := host.drop (i.toNat + 1)
      if !validOptionalPort colonPort then ([], some (.invalidPort colonPort))
      else
        let zone := strings.Index (host.take i.toNat) (str "%25")
        if zone ≥ 0 then
          match unescape (host.take zone.toNat) encodeHost with
          | (_, some err) => ([], some err)
          | (host1, none) =>
            match unescape ((host.take i.toNat).drop zone.toNat) encodeZone with
            | (_, some err) => ([], some err)
            | (host2, none) =>
              match unescape (host.drop i.toNat) encodeHost with
              | (_, some err) => ([], some err)
              | (host3, none) => (host1 ++ host2 ++ host3, none)
        else
          match unescape host encodeHost with
          | (_, some err) => ([], some err)
          | (host, none) => (host, none)
  else
    let i := strings.LastIndex host [chr ':']
    if i ≠ -1 ∧ !validOptionalPort (host.drop i.toNat) then
      ([], some (.invalidPort (host.drop i.toNat)))
    else
      match unescape host encodeHost with
      | (_, some err) => ([], some err)
      | (host, none) => (host, none)

/-- `parseAuthority(authority)`: splits `[userinfo@]host[:port]`. -/
def parseAuthority (authority : GoString) : Option Userinfo × GoString × Option error :=
  let i := strings.LastIndex authority [chr '@']
  match (if i < 0 then parseHost authority else parseHost (authority.drop (i.toNat + 1))) with
  | (_, some err) => (none, [], some err)
  | (host, none) =>
    if i < 0 then (none, host, none)
    else
      let userinfo := authority.take i.toNat
      if !validUserinfo userinfo then (none, [], some (.New "net/url: invalid userinfo"))
      else if !strings.Contains userinfo [chr ':'] then
        match unescape userinfo encodeUserPassword with
        | (_, some err) => (none, [], some err)
        | (userinfo, none) => (some { username := userinfo }, host, none) -- User(userinfo)
      else
        let (username, password, _) := strings.Cut userinfo [chr ':']
        match unescape username encodeUserPassword with
        | (_, some err) => (none, [], some err)
        | (username, none) =>
          match unescape password encodeUserPassword with
          | (_, some err) => (none, [], some err)
          | (password, none) =>
            -- UserPassword(username, password)
            (some { username := username, password := password, passwordSet := true }, host, none)

/-- `(*URL).setPath(p)`: sets the `Path` and `RawPath` fields of the URL based on the
provided escaped path `p`; returns the updated URL and the error. -/
def URL.setPath (u : URL) (p : GoString) : URL × Option error :=
  match unescape p encodePath with
  | (_, some err) => (u, some err)
  | (path, none) =>
    if p = escape path encodePath then
      -- Default encoding is fine.
      ({ u with Path := path, RawPath := [] }, none)
    else ({ u with Path := path, RawPath := p }, none)

/-- `(*URL).setFragment(f)`: like `setPath` but for the `Fragment` and `RawFragment`
fields. -/
def URL.setFragment (u : URL) (f : GoString) : URL × Option error :=
  match unescape f encodeFragment with
  | (_, some err) => (u, some err)
  | (frag, none) =>
    if f = escape frag encodeFragment then
      -- Default encoding is fine.
      ({ u with Fragment := frag, RawFragment := [] }, none)
    else ({ u with Fragment := frag, RawFragment := f }, none)

/-- `validEncoded(s, mode)`: whether `s` is a valid encoded path or fragment, according to
`mode`; it must not contain any bytes that require escaping during path encoding. Byte 39
is the single quote. -/
def validEncoded (s : GoString) (mode : encoding) : Bool :=
  s.all (fun c =>
    if c ∈ [chr '!', chr '$', chr '&', 39, chr '(', chr ')', chr '*', chr '+', chr ',', chr ';',
        chr '=', chr ':', chr '@'] then true -- ok
    else if c ∈ [chr '[', chr ']'] then true -- ok
    else if c = chr '%' then true -- ok - percent encoded, will decode
    else !shouldEscape c mode)

/-- `(*URL).EscapedPath()`: the escaped form of `u.Path`. -/
def URL.EscapedPath (u : URL) : GoString :=
  if u.RawPath ≠ [] ∧ validEncoded u.RawPath encodePath
      ∧ (unescape u.RawPath encodePath).2 = none ∧ (unescape u.RawPath encodePath).1 = u.Path then
    u.RawPath
  else if u.Path = str "*" then str "*" -- don't escape (Issue 11202)
  else escape u.Path encodePath

/-- `(*URL).EscapedFragment()`: the escaped form of `u.Fragment`. -/
def URL.EscapedFragment (u : URL) : GoString :=
  if u.RawFragment ≠ [] ∧ validEncoded u.RawFragment encodeFragment
      ∧ (unescape u.RawFragment encodeFragment).2 = none
      ∧ (unescape u.RawFragment encodeFragment).1 = u.Fragment then
    u.RawFragment
  else escape u.Fragment encodeFragment

/-- `(*Userinfo).String()`: the encoded userinfo in the standard form
`username[:password]`; the receiver may be `nil`. -/
def Userinfo.String (u : Option Userinfo) : GoString :=
  match u with
  | none => []
  | some u =>
    let s := escape u.username encodeUserPassword
    if u.passwordSet then s ++ [chr ':'] ++ escape u.password encodeUserPassword else s

/-- `parse(rawURL, viaRequest)`: parses a URL from a string in one of two contexts; if
`viaRequest` is true, the URL is assumed to have arrived via an HTTP request. The string is
assumed not to have a `#fragment` suffix. Every `return` of the Go function is either
`return nil, err` (here `.error err`) or `return url, nil` with `url := new(URL)` (here
`.ok url`). -/
def parse (rawURL : GoString) (viaRequest : Bool) : Except error URL :=
  if stringContainsCTLByte rawURL then .error (.New "net/url: invalid control character in URL")
  else if rawURL = [] ∧ viaRequest then .error (.New "empty url")
  else
    let url : URL := {}
    if rawURL = str "*" then .ok { url with Path := str "*" }
    else
      -- Split off possible leading "http:", "mailto:", etc.
      match getScheme rawURL with
      | (_, _, some err) => .error err
      | (scheme, rest, none) =>
        let url := { url with Scheme := strings.ToLower scheme }
        let (url, rest) :=
          if strings.HasSuffix rest [chr '?'] ∧ strings.Count rest [chr '?'] = 1 then
            ({ url with ForceQuery := true }, rest.take (rest.length - 1))
          else
            ({ url with RawQuery := (strings.Cut rest [chr '?']).2.1 },
              (strings.Cut rest [chr '?']).1)
        if !strings.HasPrefix rest [chr '/'] ∧ url.Scheme ≠ [] then
          -- We consider rootless paths per RFC 3986 as opaque.
          .ok { url with Opaque := rest }
        else if !strings.HasPrefix rest [chr '/'] ∧ viaRequest then
          .error (.New "invalid URI for request")
        else if !strings.HasPrefix rest [chr '/']
            ∧ strings.Contains (strings.Cut rest [chr '/']).1 [chr ':'] then
          -- First path segment has colon. Not allowed in relative URL.
          .error (.New "first path segment in URL cannot contain colon")
        else
          let step : Except error (URL × GoString) :=
            if (url.Scheme ≠ [] ∨ (!viaRequest ∧ !strings.HasPrefix rest (str "///")))
                ∧ strings.HasPrefix rest (str "//") then
              let authority := rest.drop 2
              let i := strings.Index authority [chr '/']
              let (authority, rest) :=
                if i ≥ 0 then (authority.take i.toNat, authority.drop i.toNat)
                else (authority, [])
              match parseAuthority authority with
              | (_, _, some err) => .error err
              | (user, host, none) => .ok ({ url with User := user, Host := host }, rest)
            else if url.Scheme ≠ [] ∧ strings.HasPrefix rest [chr '/'] then
              -- OmitHost is set to true when rawURL has an empty host (authority).
              .ok ({ url with OmitHost := true }, rest)
            else .ok (url, rest)
          match step with
          | .error err => .error err
          | .ok (url, rest) =>
            -- Set Path and, optionally, RawPath.
            match url.setPath rest with
            | (_, some err) => .error err
            | (url, none) => .ok url

/-- `url.Parse(rawURL)`: parses a raw URL into a URL structure; the result is the Go pair
`(*URL, error)`. -/
def Parse (rawURL : GoString) : Option URL × Option Error :=
  -- Cut off #frag
  let (u, frag, _) := strings.Cut rawURL [chr '#']
  match parse u false with
  | .error err => (none, some { Op := "parse", URL := u, Err := err })
  | .ok url =>
    if frag = [] then (some url, none)
    else
      match url.setFragment frag with
      | (_, some err) => (none, some { Op := "parse", URL := rawURL, Err := err })
      | (url, none) => (some url, none)

/-- `(*URL).String()`: reassembles the URL into a valid URL string. Reading a field of a
`nil` receiver panics. The buffer `buf` of the Go function is the string built so far (its
`Grow` only reserves memory). -/
def URL.String (u : Option URL) : Except Panic GoString :=
  match u with
  | none => .error .nilDereference
  | some u =>
    let buf : GoString := []
    let buf := if u.Scheme ≠ [] then buf ++ u.Scheme ++ [chr ':'] else buf
    let buf :=
      if u.Opaque ≠ [] then buf ++ u.Opaque
      else
        let buf :=
          if u.Scheme ≠ [] ∨ u.Host ≠ [] ∨ u.User ≠ none then
            if u.OmitHost ∧ u.Host = [] ∧ u.User = none then
              buf -- omit empty host
            else
              let buf :=
                if u.Host ≠ [] ∨ u.Path ≠ [] ∨ u.User ≠ none then buf ++ str "//" else buf
              let buf :=
                if u.User ≠ none then buf ++ Userinfo.String u.User ++ [chr '@'] else buf
              if u.Host ≠ [] then buf ++ escape u.Host encodeHost else buf
          else buf
        let path := u.EscapedPath
        let buf :=
          if path ≠ [] ∧ path.head? ≠ some (chr '/') ∧ u.Host ≠ [] then buf ++ [chr '/'] else buf
        let buf :=
          if buf.length = 0 ∧ strings.Contains (strings.Cut path [chr '/']).1 [chr ':'] then
            buf ++ str "./"
          else buf
        buf ++ path
    let buf := if u.ForceQuery ∨ u.RawQuery ≠ [] then buf ++ [chr '?'] ++ u.RawQuery else buf
    let buf := if u.Fragment ≠ [] then buf ++ [chr '#'] ++ u.EscapedFragment else buf
    .ok buf

end url
/-! ## `internal/config`: the OIDC accessors -/

/-- Modelled from the spec: the type `Options` is declared outside `config_oidc.go`; of
its fields these nine are read here, the record the spec calls RawOIDCOptions (strings may
be empty, the zero value of every field is the default). -/
structure Options where
  OIDCUri : GoString := []
  OIDCInsecure : Bool := false
  OIDCClient : GoString := []
  OIDCSecret : GoString := []
  OIDCScopes : GoString := []
  OIDCRegister : Bool := false
  OIDCRedirect : Bool := false
  OIDCProvider : GoString := []
  OIDCProviderIcon : GoString := []
  deriving DecidableEq, Repr

/-- Modelled from the spec: the type `Config` is declared outside `config_oidc.go`; the
accessors read its field `options` only, which the configuration loader has populated. -/
structure Config where
  options : Options := {}
  deriving DecidableEq, Repr

/-- A record written by `log.Errorf(format, err)`. -/
structure LogRecord where
  format : String
  err : url.Error
  deriving DecidableEq, Repr

def OIDCDefaultScopes : GoString := str "openid email profile"

namespace Config

/-- OIDCEnabled checks if login via OpenID Connect (OIDC) is enabled. -/
def OIDCEnabled (c : Config) : Bool :=
  decide (c.options.OIDCUri ≠ []) && decide (c.options.OIDCClient ≠ [])
    && decide (c.options.OIDCSecret ≠ [])

/-- OIDCUri returns the OpenID Connect issuer URI as `*url.URL` for single sign-on via
OIDC, together with the records it logs. -/
def OIDCUri (c : Config) : Option url.URL × List LogRecord :=
  let uri := c.options.OIDCUri
  if uri = [] then (some {}, [])
  else
    match url.Parse uri with
    | (_, some err) => (some {}, [{ format := "oidc: failed to parse issuer URI (%s)", err := err }])
    | (result, none) => (result, [])

/-- OIDCInsecure checks if OIDC issuer SSL/TLS certificate verification should be
skipped. -/
def OIDCInsecure (c : Config) : Bool := c.options.OIDCInsecure

/-- OIDCClient returns the Client ID for single sign-on via OIDC. -/
def OIDCClient (c : Config) : GoString := c.options.OIDCClient

/-- OIDCSecret returns the value of the option `OIDCSecret`. -/
def OIDCSecret (c : Config) : GoString := c.options.OIDCSecret

/-- OIDCScopes returns the user information scopes for single sign-on via OIDC. -/
def OIDCScopes (c : Config) : GoString :=
  if c.options.OIDCScopes = [] then OIDCDefaultScopes
  else c.options.OIDCScopes

/-- OIDCRegister checks if new accounts may be created via OIDC. -/
def OIDCRegister (c : Config) : Bool := c.options.OIDCRegister

/-- OIDCRedirect checks if unauthenticated users should automatically be redirected to the
OIDC login page. -/
def OIDCRedirect (c : Config) : Bool := c.options.OIDCRedirect

/-- OIDCProvider returns the OIDC provider name, if any. -/
def OIDCProvider (c : Config) : GoString := c.options.OIDCProvider

/-- OIDCProviderIcon returns the OIDC provider icon URI, if any. -/
def OIDCProviderIcon (c : Config) : GoString := c.options.OIDCProviderIcon

/-- OIDCReport returns the OpenID Connect config values as a table for reporting: the
pair `(rows, cols)`, or the panic raised by one of the calls that build the rows, together
with the records logged by `OIDCUri`. -/
def OIDCReport (c : Config) :
    Except Panic (List (List GoString) × List GoString) × List LogRecord :=
  let cols := [str "Name", str "Value"]
  let rows : Except Panic (List (List GoString)) :=
    match url.URL.String c.OIDCUri.1 with
    | .error p => .error p
    | .ok uri =>
      match strings.Repeat (str "*") (utf8.RuneCountInString c.OIDCSecret : Nat) with
      | .error p => .error p
      | .ok secret =>
        .ok [
          [str "oidc-uri", uri],
          [str "oidc-insecure", fmt.Sprintf_t c.OIDCInsecure],
          [str "oidc-client", c.OIDCClient],
          [str "oidc-secret", secret],
          [str "oidc-scopes", c.OIDCScopes],
          [str "oidc-register", fmt.Sprintf_t c.OIDCRegister],
          [str "oidc-redirect", fmt.Sprintf_t c.OIDCRedirect],
          [str "oidc-provider", c.OIDCProvider],
          [str "oidc-provider-icon", c.OIDCProviderIcon]]
  match rows with
  | .error p => (.error p, c.OIDCUri.2)
  | .ok rows => (.ok (rows, cols), c.OIDCUri.2)

end Config

/-! ## The accessors as operations on the program state -/

/-- The part of the program state that a method with receiver `c *Config` can reach: the
configuration `c` points to, with the options record in it, and the records written to the
logger so far. -/
structure World where
  config : Config
  log : List LogRecord
  deriving DecidableEq, Repr

/-! The methods of `config_oidc.go` in state-passing form: each takes the state before the
call and returns its result with the state after the call. No method assigns to a field of
`c` or of `c.options`; the only write is `log.Errorf` in `OIDCUri`. -/

namespace Call

/-- The call `log.Errorf(format, err)`: appends a record to the log. -/
def Errorf (format : String) (err : url.Error) (w : World) : World :=
  { w with log := w.log ++ [{ format := format, err := err }] }

def OIDCEnabled (w : World) : Bool × World :=
  (decide (w.config.options.OIDCUri ≠ []) && decide (w.config.options.OIDCClient ≠ [])
    && decide (w.config.options.OIDCSecret ≠ []), w)

def OIDCUri (w : World) : Option url.URL × World :=
  let uri := w.config.options.OIDCUri
  if uri = [] then (some {}, w)
  else
    match url.Parse uri with
    | (_, some err) => (some {}, Errorf "oidc: failed to parse issuer URI (%s)" err w)
    | (result, none) => (result, w)

def OIDCInsecure (w : World) : Bool × World := (w.config.options.OIDCInsecure, w)

def OIDCClient (w : World) : GoString × World := (w.config.options.OIDCClient, w)

def OIDCSecret (w : World) : GoString × World := (w.config.options.OIDCSecret, w)

def OIDCScopes (w : World) : GoString × World :=
  if w.config.options.OIDCScopes = [] then (OIDCDefaultScopes, w)
  else (w.config.options.OIDCScopes, w)

def OIDCRegister (w : World) : Bool × World := (w.config.options.OIDCRegister, w)

def OIDCRedirect (w : World) : Bool × World := (w.config.options.OIDCRedirect, w)

def OIDCProvider (w : World) : GoString × World := (w.config.options.OIDCProvider, w)

def OIDCProviderIcon (w : World) : GoString × World := (w.config.options.OIDCProviderIcon, w)

/-- The method `OIDCReport`: the calls that build the rows run in the order of the rows,
each in the state the previous one left. -/
def OIDCReport (w : World) :
    Except Panic (List (List GoString) × List GoString) × World :=
  let cols := [str "Name", str "Value"]
  let (u, w) := OIDCUri w
  match url.URL.String u with
  | .error p => (.error p, w)
  | .ok uri =>
    let (insecure, w) := OIDCInsecure w
    let (client, w) := OIDCClient w
    let (secret, w) := OIDCSecret w
    match strings.Repeat (str "*") (utf8.RuneCountInString secret : Nat) with
    | .error p => (.error p, w)
    | .ok redacted =>
      let (scopes, w) := OIDCScopes w
      let (register, w) := OIDCRegister w
      let (redirect, w) := OIDCRedirect w
      let (provider, w) := OIDCProvider w
      let (icon, w) := OIDCProviderIcon w
      (.ok ([
          [str "oidc-uri", uri],
          [str "oidc-insecure", fmt.Sprintf_t insecure],
          [str "oidc-client", client],
          [str "oidc-secret", redacted],
          [str "oidc-scopes", scopes],
          [str "oidc-register", fmt.Sprintf_t register],
          [str "oidc-redirect", fmt.Sprintf_t redirect],
          [str "oidc-provider", provider],
          [str "oidc-provider-icon", icon]], cols), w)

end Call

/-- An operation is a read of the configuration: it leaves the configuration, and with it
all nine option fields, as it was, and calling it again in the state it left returns the
same result. -/
def ReadsConfig {α : Type} (op : World → α × World) : Prop :=
  ∀ w, (op w).2.config = w.config ∧ (op w).2.config.options = w.config.options ∧
    (op (op w).2).1 = (op w).1

/-- An ASCII letter, `a` to `z` or `A` to `Z`. -/
def isASCIILetter (b : Byte) : Prop :=
  (chr 'a' ≤ b ∧ b ≤ chr 'z') ∨ (chr 'A' ≤ b ∧ b ≤ chr 'Z')

instance (b : Byte) : Decidable (isASCIILetter b) := by
  unfold isASCIILetter; infer_instance

/-! ## Assignments to the options and example configurations -/

/-- The assignment `c.options.OIDCUri = s`, as in `TestConfig_OIDCUri`. -/
def Config.setOIDCUri (c : Config) (s : GoString) : Config :=
  { c with options := { c.options with OIDCUri := s } }

/-- The assignment `c.options.OIDCSecret = s`. -/
def Config.setOIDCSecret (c : Config) (s : GoString) : Config :=
  { c with options := { c.options with OIDCSecret := s } }

/-- The assignment `c.options.OIDCScopes = s`, as in `TestConfig_OIDCScopes`. -/
def Config.setOIDCScopes (c : Config) (s : GoString) : Config :=
  { c with options := { c.options with OIDCScopes := s } }

/-- The configuration in which no OIDC option is set. -/
def Config.unset : Config := {}

/-- A configuration with the three options set that enable OIDC. -/
def Config.enabled : Config :=
  { options :=
      { OIDCUri := str "https://idp.example.com"
        OIDCClient := str "abc"
        OIDCSecret := str "xyz123" } }

/-- A configuration with all nine options set. -/
def Config.allSet : Config :=
  { options :=
      { OIDCUri := str "https://idp.example.com"
        OIDCInsecure := true
        OIDCClient := str "abc"
        OIDCSecret := str "xyz123"
        OIDCScopes := str "openid"
        OIDCRegister := true
        OIDCRedirect := true
        OIDCProvider := str "idp"
        OIDCProviderIcon := str "/icon.svg" } }

/-- A configuration whose issuer URI is `:`, which `url.Parse` rejects (missing protocol
scheme). -/
def Config.malformedUri : Config :=
  { options := { OIDCUri := str ":", OIDCClient := str "abc", OIDCSecret := str "xyz123" } }

/-- A configuration whose issuer URI is `not a valid uri???::`. -/
def Config.oddUri : Config := { options := { OIDCUri := str "not a valid uri???::" } }

/-! ## Lemmas about the library functions -/

theorem str_star : str "*" = [chr '*'] := by decide

theorem flatten_replicate_singleton (n : Nat) (b : Byte) :
    (List.replicate n [b]).flatten = List.replicate n b := by
  induction n with
  | zero => rfl
  | succ k ih => simp [List.replicate_succ, ih]

/-- Repeating the one-byte string `*` a non-negative number of times never panics and
gives that many asterisks. -/
theorem strings.Repeat_star (n : Nat) :
    strings.Repeat (str "*") (n : Int) = .ok (List.replicate n (chr '*')) := by
  rw [str_star]
  unfold strings.Repeat
  by_cases h0 : n = 0
  · subst h0; simp
  · by_cases h1 : n = 1
    · subst h1; simp
    · have hn0 : ¬ ((n : Int) = 0) := by omega
      have hn1 : ¬ ((n : Int) = 1) := by omega
      have hneg : ¬ ((n : Int) < 0) := by omega
      simp only [hn0, hn1, hneg, if_false, Int.toNat_ofNat, flatten_replicate_singleton]

/-- When `url.Parse` returns no error, the URL it returns is not `nil`. -/
theorem url.Parse_nonnil (rawURL : GoString) (h : (url.Parse rawURL).2 = none) :
    ∃ u, (url.Parse rawURL).1 = some u := by
  unfold url.Parse at h ⊢
  simp only at h ⊢
  split
  · rename_i err heq
    rw [heq] at h
    simp at h
  · rename_i u heq
    rw [heq] at h
    simp only at h ⊢
    split
    · exact ⟨_, rfl⟩
    · rename_i hfrag
      rw [if_neg hfrag] at h
      split
      · rename_i e he
        rw [he] at h
        simp at h
      · exact ⟨_, rfl⟩

/-- The string form of a URL that is not `nil` is defined. -/
theorem url.URL.String_some (u : url.URL) : ∃ s, url.URL.String (some u) = .ok s :=
  ⟨_, rfl⟩

/-- The string form of the zero URL is the empty string. -/
theorem url.URL.String_zero : url.URL.String (some {}) = .ok [] := by decide

/-- Sample evaluations of `url.Parse` followed by `String`: a full URL is re-escaped, a
relative reference with a space is accepted, and a malformed host or escape is an error. -/
theorem url.Parse_String_samples :
    url.URL.String (url.Parse (str "https://idp.example.com")).1
      = .ok (str "https://idp.example.com") ∧
    url.URL.String (url.Parse (str "HTTPS://u:p%40@[fe80::1%25en0]:80/a%2Fb c?x=1#fr ag")).1
      = .ok (str "https://u:p%40@[fe80::1%25en0]:80/a/b%20c?x=1#fr%20ag") ∧
    url.Parse (str "test") = (some { Path := str "test" }, none) ∧
    url.Parse (str "a b") = (some { Path := str "a b", RawPath := str "a b" }, none) ∧
    url.Parse (str "http://a b.com/")
      = (none, some ⟨"parse", str "http://a b.com/", .InvalidHostError (str " ")⟩) ∧
    url.Parse (str "/a%zz") = (none, some ⟨"parse", str "/a%zz", .EscapeError (str "%zz")⟩) ∧
    url.Parse (str ":") = (none, some ⟨"parse", str ":", .New "missing protocol scheme"⟩) := by
  decide

/-- Sample evaluations of `utf8.RuneCountInString`: bytes that are not valid UTF-8 count as
one rune each. -/
theorem utf8.RuneCountInString_samples :
    utf8.RuneCountInString (str "xyz123") = 6 ∧
    utf8.RuneCountInString (str "héllo€😀") = 7 ∧ (str "héllo€😀").length = 13 ∧
    utf8.RuneCountInString [0xff, 0xC3, 0x41, 0xE2, 0x82] = 5 := by
  decide

section Utf8Lemmas

open utf8

/-! ### UTF-8: the runes of an encoded text -/

theorem byte_val (n : Nat) : (byte n).val = n % 256 := rfl

theorem utf8.or_t2 : ∀ x, x < 32 → 0xC0 ||| x = 0xC0 + x := by decide
theorem utf8.or_tx : ∀ x, x < 64 → 0x80 ||| x = 0x80 + x := by decide
theorem utf8.or_t3 : ∀ x, x < 16 → 0xE0 ||| x = 0xE0 + x := by decide
theorem utf8.or_t4 : ∀ x, x < 8 → 0xF0 ||| x = 0xF0 + x := by decide

/-- A continuation byte `tx | byte(a)&maskx` is `0x80 + a % 64`. -/
theorem utf8.cont_eq (a : Nat) : tx ||| (a % 256 &&& maskx) = 0x80 + a % 64 := by
  have h : a % 256 &&& maskx = a % 256 % 2 ^ 6 := Nat.and_pow_two_sub_one_eq_mod (a % 256) 6
  have h2 : a % 256 % 2 ^ 6 = a % 64 := by omega
  rw [h, h2]
  exact utf8.or_tx _ (by omega)

theorem utf8.AppendRune_one (v : Nat) (h : v < 0x80) : AppendRune [] v = [byte v] := by
  have h1 : v ≤ rune1Max := by simp only [rune1Max]; omega
  simp only [AppendRune, h1, if_true, List.nil_append]

theorem utf8.AppendRune_two (v : Nat) (hlo : 0x80 ≤ v) (hhi : v < 0x800) :
    AppendRune [] v = [byte (0xC0 + v / 64), byte (0x80 + v % 64)] := by
  have h1 : ¬ v ≤ rune1Max := by simp only [rune1Max]; omega
  have h2 : v ≤ rune2Max := by simp only [rune2Max]; omega
  have e0 : t2 ||| (v >>> 6) % 256 = 0xC0 + v / 64 := by
    rw [Nat.shiftRight_eq_div_pow]
    have : v / 2 ^ 6 % 256 = v / 64 := by omega
    rw [this]
    exact utf8.or_t2 _ (by omega)
  simp only [AppendRune, h1, h2, if_true, if_false, List.nil_append, e0, utf8.cont_eq]

theorem utf8.AppendRune_three (v : Nat) (hlo : 0x800 ≤ v) (hhi : v < 0x10000)
    (hs : v < 0xD800 ∨ 0xDFFF < v) :
    AppendRune [] v = [byte (0xE0 + v / 4096), byte (0x80 + v / 64 % 64), byte (0x80 + v % 64)] := by
  have h1 : ¬ v ≤ rune1Max := by simp only [rune1Max]; omega
  have h2 : ¬ v ≤ rune2Max := by simp only [rune2Max]; omega
  have h3 : ¬ (v > MaxRune ∨ (surrogateMin ≤ v ∧ v ≤ surrogateMax)) := by
    simp only [MaxRune, surrogateMin, surrogateMax]; omega
  have h4 : v ≤ rune3Max := by simp only [rune3Max]; omega
  have e0 : t3 ||| (v >>> 12) % 256 = 0xE0 + v / 4096 := by
    rw [Nat.shiftRight_eq_div_pow]
    have : v / 2 ^ 12 % 256 = v / 4096 := by omega
    rw [this]
    exact utf8.or_t3 _ (by omega)
  have e1 : (v >>> 6) % 64 = v / 64 % 64 := by rw [Nat.shiftRight_eq_div_pow]
  simp only [AppendRune, h1, h2, h3, h4, if_true, if_false, List.nil_append, e0, utf8.cont_eq, e1]

theorem utf8.AppendRune_four (v : Nat) (hlo : 0x10000 ≤ v) (hhi : v < 0x110000) :
    AppendRune [] v = [byte (0xF0 + v / 262144), byte (0x80 + v / 4096 % 64),
      byte (0x80 + v / 64 % 64), byte (0x80 + v % 64)] := by
  have h1 : ¬ v ≤ rune1Max := by simp only [rune1Max]; omega
  have h2 : ¬ v ≤ rune2Max := by simp only [rune2Max]; omega
  have h3 : ¬ (v > MaxRune ∨ (surrogateMin ≤ v ∧ v ≤ surrogateMax)) := by
    simp only [MaxRune, surrogateMin, surrogateMax]; omega
  have h4 : ¬ v ≤ rune3Max := by simp only [rune3Max]; omega
  have e0 : t4 ||| (v >>> 18) % 256 = 0xF0 + v / 262144 := by
    rw [Nat.shiftRight_eq_div_pow]
    have : v / 2 ^ 18 % 256 = v / 262144 := by omega
    rw [this]
    exact utf8.or_t4 _ (by omega)
  have e1 : (v >>> 6) % 64 = v / 64 % 64 := by rw [Nat.shiftRight_eq_div_pow]
  have e2 : (v >>> 12) % 64 = v / 4096 % 64 := by rw [Nat.shiftRight_eq_div_pow]
  simp only [AppendRune, h1, h2, h3, h4, if_false, List.nil_append, e0, utf8.cont_eq, e1, e2]

theorem utf8.runeStep_one (b0 : Byte) (rest : GoString) (h0 : b0.val < 0x80) :
    runeStep (b0 :: rest) = 1 := by
  unfold runeStep
  simp only [byteAt, List.getD_cons_zero, RuneSelf, h0, if_true]

/-- The step over a well-formed two-, three- or four-byte sequence, given the entry `x` of
the table `first` for its first byte and the accept range of its second byte. -/
theorem utf8.runeStep_multi (b0 : Byte) (tl : GoString) (x lo hi : Nat)
    (h0 : 0x80 ≤ b0.val) (hx : first.getD b0.val 0 = x) (hxx : x ≠ xx)
    (hlen : (x &&& 7) ≤ tl.length + 1)
    (hacc : acceptRanges.getD (x >>> 4) ⟨0, 0⟩ = ⟨lo, hi⟩)
    (h1 : lo ≤ byteAt (b0 :: tl) 1 ∧ byteAt (b0 :: tl) 1 ≤ hi)
    (h2 : (x &&& 7) = 2 ∨ (0x80 ≤ byteAt (b0 :: tl) 2 ∧ byteAt (b0 :: tl) 2 ≤ 0xBF))
    (h3 : (x &&& 7) = 2 ∨ (x &&& 7) = 3 ∨
      (0x80 ≤ byteAt (b0 :: tl) 3 ∧ byteAt (b0 :: tl) 3 ≤ 0xBF)) :
    runeStep (b0 :: tl) = (x &&& 7) := by
  have hlt : ¬ (byteAt (b0 :: tl) 0 < RuneSelf) := by
    simp only [byteAt, List.getD_cons_zero, RuneSelf]; omega
  have hx' : first.getD (byteAt (b0 :: tl) 0) 0 = x := by
    simpa only [byteAt, List.getD_cons_zero] using hx
  have hlen' : ¬ ((x &&& 7) > (b0 :: tl).length) := by
    simp only [List.length_cons]; omega
  have h1' : ¬ (byteAt (b0 :: tl) 1 < lo ∨ hi < byteAt (b0 :: tl) 1) := by omega
  unfold runeStep
  simp only [hlt, if_false, hx', hxx, hlen', hacc, h1']
  by_cases e2 : (x &&& 7) = 2
  · simp only [e2, if_true]
  · have h2' : ¬ (byteAt (b0 :: tl) 2 < locb ∨ hicb < byteAt (b0 :: tl) 2) := by
      simp only [locb, hicb]; omega
    simp only [e2, if_false, h2']
    by_cases e3 : (x &&& 7) = 3
    · simp only [e3, if_true]
    · have h3' : ¬ (byteAt (b0 :: tl) 3 < locb ∨ hicb < byteAt (b0 :: tl) 3) := by
        simp only [locb, hicb]; omega
      simp only [e3, if_false, h3']

/-- The entries of `first` and `acceptRanges` for the first bytes of multi-byte
sequences. -/
theorem utf8.first_lead : ∀ b : Byte,
    (0xC2 ≤ b.val → b.val ≤ 0xDF → first.getD b.val 0 = 0x02) ∧
    (b.val = 0xE0 → first.getD b.val 0 = 0x13) ∧
    (0xE1 ≤ b.val → b.val ≤ 0xEF → b.val ≠ 0xED → first.getD b.val 0 = 0x03) ∧
    (b.val = 0xED → first.getD b.val 0 = 0x23) ∧
    (b.val = 0xF0 → first.getD b.val 0 = 0x34) ∧
    (0xF1 ≤ b.val → b.val ≤ 0xF3 → first.getD b.val 0 = 0x04) ∧
    (b.val = 0xF4 → first.getD b.val 0 = 0x44) := by
  decide

/-- The loop body of `RuneCountInString` steps over the encoding of a valid code point
in one go. -/
theorem utf8.runeStep_AppendRune (v : Nat) (hv : v < 0xD800 ∨ (0xDFFF < v ∧ v < 0x110000))
    (rest : GoString) :
    0 < (AppendRune [] v).length ∧
    runeStep (AppendRune [] v ++ rest) = (AppendRune [] v).length := by
  by_cases c1 : v < 0x80
  · rw [utf8.AppendRune_one v c1]
    exact ⟨by simp, utf8.runeStep_one _ _ (by rw [byte_val]; omega)⟩
  by_cases c2 : v < 0x800
  · rw [utf8.AppendRune_two v (by omega) c2]
    refine ⟨by simp, ?_⟩
    have hb : (byte (0xC0 + v / 64)).val = 0xC0 + v / 64 := by rw [byte_val]; omega
    have hf := (utf8.first_lead (byte (0xC0 + v / 64))).1 (by omega) (by omega)
    have hsz : (0x02 &&& 7 : Nat) = 2 := by decide
    have := utf8.runeStep_multi (byte (0xC0 + v / 64)) (byte (0x80 + v % 64) :: rest) 0x02
      0x80 0xBF (by omega) hf (by decide) (by rw [hsz]; simp) (by decide)
      (by simp only [byteAt, List.getD_cons_succ, List.getD_cons_zero, byte_val]; omega)
      (Or.inl hsz) (Or.inl hsz)
    rw [hsz] at this
    simpa using this
  by_cases c3 : v < 0x10000
  · rw [utf8.AppendRune_three v (by omega) c3 (by omega)]
    refine ⟨by simp, ?_⟩
    have hb : (byte (0xE0 + v / 4096)).val = 0xE0 + v / 4096 := by rw [byte_val]; omega
    have hl := utf8.first_lead (byte (0xE0 + v / 4096))
    have key : ∃ x lo hi, first.getD (byte (0xE0 + v / 4096)).val 0 = x ∧ x ≠ xx ∧
        (x &&& 7) = 3 ∧ acceptRanges.getD (x >>> 4) ⟨0, 0⟩ = ⟨lo, hi⟩ ∧
        lo ≤ 0x80 + v / 64 % 64 ∧ 0x80 + v / 64 % 64 ≤ hi := by
      by_cases d1 : v / 4096 = 0
      · exact ⟨0x13, 0xA0, 0xBF, hl.2.1 (by omega), by decide, by decide, by decide,
          by omega, by omega⟩
      by_cases d2 : v / 4096 = 0xD
      · exact ⟨0x23, 0x80, 0x9F, hl.2.2.2.1 (by omega), by decide, by decide, by decide,
          by omega, by omega⟩
      · exact ⟨0x03, 0x80, 0xBF, hl.2.2.1 (by omega) (by omega) (by omega), by decide,
          by decide, by decide, by omega, by omega⟩
    obtain ⟨x, lo, hi, hx, hxx, hsz, hacc, hlo, hhi⟩ := key
    have := utf8.runeStep_multi (byte (0xE0 + v / 4096))
      (byte (0x80 + v / 64 % 64) :: byte (0x80 + v % 64) :: rest) x lo hi (by omega) hx hxx
      (by rw [hsz]; simp) hacc
      (by simp only [byteAt, List.getD_cons_succ, List.getD_cons_zero, byte_val]; omega)
      (Or.inr (by simp only [byteAt, List.getD_cons_succ, List.getD_cons_zero, byte_val]; omega))
      (Or.inr (Or.inl hsz))
    rw [hsz] at this
    simpa using this
  · have c4 : v < 0x110000 := by omega
    rw [utf8.AppendRune_four v (by omega) c4]
    refine ⟨by simp, ?_⟩
    have hb : (byte (0xF0 + v / 262144)).val = 0xF0 + v / 262144 := by rw [byte_val]; omega
    have hl := utf8.first_lead (byte (0xF0 + v / 262144))
    have key : ∃ x lo hi, first.getD (byte (0xF0 + v / 262144)).val 0 = x ∧ x ≠ xx ∧
        (x &&& 7) = 4 ∧ acceptRanges.getD (x >>> 4) ⟨0, 0⟩ = ⟨lo, hi⟩ ∧
        lo ≤ 0x80 + v / 4096 % 64 ∧ 0x80 + v / 4096 % 64 ≤ hi := by
      by_cases d1 : v / 262144 = 0
      · exact ⟨0x34, 0x90, 0xBF, hl.2.2.2.2.1 (by omega), by decide, by decide, by decide,
          by omega, by omega⟩
      by_cases d2 : v / 262144 = 4
      · exact ⟨0x44, 0x80, 0x8F, hl.2.2.2.2.2.2 (by omega), by decide, by decide, by decide,
          by omega, by omega⟩
      · exact ⟨0x04, 0x80, 0xBF, hl.2.2.2.2.2.1 (by omega) (by omega), by decide,
          by decide, by decide, by omega, by omega⟩
    obtain ⟨x, lo, hi, hx, hxx, hsz, hacc, hlo, hhi⟩ := key
    have := utf8.runeStep_multi (byte (0xF0 + v / 262144))
      (byte (0x80 + v / 4096 % 64) :: byte (0x80 + v / 64 % 64) :: byte (0x80 + v % 64) :: rest)
      x lo hi (by omega) hx hxx (by rw [hsz]; simp) hacc
      (by simp only [byteAt, List.getD_cons_succ, List.getD_cons_zero, byte_val]; omega)
      (Or.inr (by simp only [byteAt, List.getD_cons_succ, List.getD_cons_zero, byte_val]; omega))
      (Or.inr (Or.inr (by
        simp only [byteAt, List.getD_cons_succ, List.getD_cons_zero, byte_val]; omega)))
    rw [hsz] at this
    simpa using this

/-- Every entry of `first` for a byte `>= 0x80` is `xx` or has a size of 2, 3 or 4. -/
theorem utf8.first_size : ∀ b : Byte, 0x80 ≤ b.val →
    first.getD b.val 0 = xx ∨ 2 ≤ (first.getD b.val 0 &&& 7) := by
  decide

/-- Every iteration of the loop of `RuneCountInString` consumes at least one byte. -/
theorem utf8.runeStep_pos (s : GoString) : 0 < runeStep s := by
  unfold runeStep
  simp only
  split
  · exact Nat.one_pos
  · rename_i h
    split
    · exact Nat.one_pos
    · rename_i hx
      have hs : 2 ≤ (first.getD (byteAt s 0) 0 &&& 7) := by
        have hb : (s.getD 0 0).val = byteAt s 0 := rfl
        have := utf8.first_size (s.getD 0 0) (by rw [hb]; simp only [RuneSelf] at h; omega)
        rw [hb] at this
        rcases this with h1 | h1
        · exact absurd h1 hx
        · exact h1
      repeat' split
      all_goals omega

theorem utf8.runeCountLoop_add (fuel : Nat) : ∀ (s : GoString) (n : Nat),
    runeCountLoop fuel s n = n + runeCountLoop fuel s 0 := by
  induction fuel with
  | zero => intro s n; simp [runeCountLoop]
  | succ k ih =>
    intro s n
    cases s with
    | nil => simp [runeCountLoop]
    | cons c rest =>
      simp only [runeCountLoop]
      rw [ih _ (n + 1), ih _ (0 + 1)]
      omega

/-- Once the fuel covers the length of the string, more fuel does not change the count. -/
theorem utf8.runeCountLoop_fuel (fuel : Nat) : ∀ (fuel2 : Nat) (s : GoString) (n : Nat),
    s.length ≤ fuel → s.length ≤ fuel2 → runeCountLoop fuel s n = runeCountLoop fuel2 s n := by
  induction fuel with
  | zero =>
    intro fuel2 s n h _
    have : s = [] := List.eq_nil_of_length_eq_zero (by omega)
    subst this
    cases fuel2 <;> rfl
  | succ k ih =>
    intro fuel2 s n h h2
    cases s with
    | nil => cases fuel2 <;> rfl
    | cons c rest =>
      have hpos := utf8.runeStep_pos (c :: rest)
      have hlen : ((c :: rest).drop (runeStep (c :: rest))).length ≤ rest.length := by
        simp only [List.length_drop, List.length_cons]; omega
      simp only [List.length_cons] at h h2
      cases fuel2 with
      | zero => omega
      | succ k2 =>
        simp only [runeCountLoop]
        exact ih k2 _ _ (by omega) (by omega)

/-- The unfolding of `RuneCountInString`: one rune for the step at the front, then the
runes of what is left. -/
theorem utf8.RuneCountInString_cons (c : Byte) (rest : GoString) :
    RuneCountInString (c :: rest) =
      1 + RuneCountInString ((c :: rest).drop (runeStep (c :: rest))) := by
  have hpos := utf8.runeStep_pos (c :: rest)
  have hlen : ((c :: rest).drop (runeStep (c :: rest))).length ≤ rest.length := by
    simp only [List.length_drop, List.length_cons]; omega
  simp only [RuneCountInString, List.length_cons, runeCountLoop]
  rw [utf8.runeCountLoop_add, utf8.runeCountLoop_fuel _ _ _ _ hlen (le_refl _)]

theorem utf8.RuneCountInString_nil : RuneCountInString [] = 0 := rfl

theorem utf8.AppendRune_append (p : GoString) (r : Nat) :
    AppendRune p r = p ++ AppendRune [] r := by
  unfold AppendRune
  repeat' split
  all_goals simp

theorem GoString.ofText_eq_flatMap (t : String) :
    GoString.ofText t = t.data.flatMap (fun c => AppendRune [] c.toNat) := by
  unfold GoString.ofText
  suffices h : ∀ (cs : List Char) (acc : GoString),
      cs.foldl (fun p c => AppendRune p c.toNat) acc
        = acc ++ cs.flatMap (fun c => AppendRune [] c.toNat) by
    simpa using h t.data []
  intro cs
  induction cs with
  | nil => intro acc; simp
  | cons c cs ih =>
    intro acc
    rw [List.foldl_cons, ih, utf8.AppendRune_append acc, List.flatMap_cons, List.append_assoc]

/-- A code point of a text is a Unicode scalar value. -/
theorem Char.toNat_valid (c : Char) :
    c.toNat < 0xD800 ∨ (0xDFFF < c.toNat ∧ c.toNat < 0x110000) := c.valid

/-- Counting runes steps over the encoding of one code point at the front. -/
theorem utf8.RuneCountInString_AppendRune (v : Nat)
    (hv : v < 0xD800 ∨ (0xDFFF < v ∧ v < 0x110000)) (rest : GoString) :
    RuneCountInString (AppendRune [] v ++ rest) = 1 + RuneCountInString rest := by
  obtain ⟨hpos, hstep⟩ := utf8.runeStep_AppendRune v hv rest
  cases he : AppendRune [] v with
  | nil => rw [he] at hpos; simp at hpos
  | cons b tl =>
    rw [he] at hstep
    rw [List.cons_append, utf8.RuneCountInString_cons, ← List.cons_append, hstep,
      List.drop_left]

/-- The number of runes of the Go string that holds a text is the number of code points
of the text. -/
theorem utf8.RuneCountInString_ofText (t : String) :
    RuneCountInString (GoString.ofText t) = t.length := by
  rw [GoString.ofText_eq_flatMap]
  show _ = t.data.length
  induction t.data with
  | nil => rfl
  | cons c cs ih =>
    rw [List.flatMap_cons, utf8.RuneCountInString_AppendRune _ c.toNat_valid, ih,
      List.length_cons]
    omega

end Utf8Lemmas

/-! ### `strings.Contains` -/

theorem strings.HasPrefix_iff (s pre : GoString) :
    strings.HasPrefix s pre = true ↔ pre <+: s := by
  unfold strings.HasPrefix
  rw [Bool.and_eq_true, decide_eq_true_iff, decide_eq_true_iff, List.prefix_iff_eq_take]
  constructor
  · rintro ⟨-, h⟩; exact h.symm
  · intro h
    refine ⟨?_, h.symm⟩
    have := congrArg List.length h
    rw [List.length_take] at this
    omega

theorem strings.indexLoop_nonneg_iff (sub : GoString) : ∀ (s : GoString) (i : Nat),
    0 ≤ strings.indexLoop s sub i ↔ sub <:+: s := by
  intro s
  induction s with
  | nil =>
    intro i
    unfold strings.indexLoop
    by_cases h : sub = []
    · simp [h]
    · simp [h]
  | cons c rest ih =>
    intro i
    unfold strings.indexLoop
    by_cases h : strings.HasPrefix (c :: rest) sub = true
    · rw [if_pos h]
      have hp := (strings.HasPrefix_iff _ _).1 h
      constructor
      · intro _; exact hp.isInfix
      · intro _; exact Int.ofNat_nonneg i
    · rw [if_neg h, ih (i + 1), List.infix_cons_iff]
      have hp : ¬ sub <+: c :: rest := fun hp => h ((strings.HasPrefix_iff _ _).2 hp)
      constructor
      · intro h'; exact Or.inr h'
      · rintro (h' | h')
        · exact absurd h' hp
        · exact h'

/-- `strings.Contains(s, substr)` holds exactly when `substr` is a contiguous part of
`s`. -/
theorem strings.Contains_iff (s sub : GoString) :
    strings.Contains s sub = true ↔ sub <:+: s := by
  unfold strings.Contains strings.Index
  rw [decide_eq_true_iff]
  exact strings.indexLoop_nonneg_iff sub s 0

theorem strings.Contains_nil_left (sub : GoString) (h : sub ≠ []) :
    strings.Contains [] sub = false := by
  rw [← Bool.not_eq_true, strings.Contains_iff]
  intro hi
  exact h (List.eq_nil_of_infix_nil hi)

/-- A run of asterisks contains a non-empty string exactly when that string is a run of
at most as many asterisks. -/
theorem strings.Contains_replicate (n : Nat) (b : Byte) (sub : GoString) :
    strings.Contains (List.replicate n b) sub = true ↔
      (∀ x ∈ sub, x = b) ∧ sub.length ≤ n := by
  rw [strings.Contains_iff]
  constructor
  · intro h
    refine ⟨fun x hx => List.eq_of_mem_replicate (h.subset hx), ?_⟩
    have := h.length_le
    simpa using this
  · rintro ⟨hall, hlen⟩
    have hs : sub = List.replicate sub.length b := List.eq_replicate_of_mem hall
    rw [hs]
    refine ⟨[], List.replicate (n - sub.length) b, ?_⟩
    rw [List.nil_append, ← List.replicate_add]
    congr 1
    omega

/-- A string of ASCII bytes has as many runes as bytes. -/
theorem utf8.RuneCountInString_ascii (s : GoString) (h : ∀ b ∈ s, b.val < 0x80) :
    utf8.RuneCountInString s = s.length := by
  induction s with
  | nil => rfl
  | cons c rest ih =>
    rw [utf8.RuneCountInString_cons, utf8.runeStep_one c rest (h c (List.mem_cons_self _ _))]
    simp only [List.drop_succ_cons, List.drop_zero, List.length_cons]
    rw [ih (fun b hb => h b (List.mem_cons_of_mem _ hb))]
    omega

/-- Replacing one cell of a list of cells by a cell that does not satisfy `P` removes at
most that cell from the cells that satisfy `P`. -/
theorem exists_mem_replace_cell (P : GoString → Prop) (A B : List GoString) (x y : GoString)
    (hy : ¬ P y) :
    (∃ cell ∈ A ++ x :: B, P cell) ↔ (P x ∨ ∃ cell ∈ A ++ y :: B, P cell) := by
  constructor
  · rintro ⟨cell, hmem, hP⟩
    rcases List.mem_append.1 hmem with hA | hB
    · exact Or.inr ⟨cell, List.mem_append_left _ hA, hP⟩
    · rcases List.mem_cons.1 hB with rfl | hB
      · exact Or.inl hP
      · exact Or.inr ⟨cell, List.mem_append_right _ (List.mem_cons_of_mem _ hB), hP⟩
  · rintro (hP | ⟨cell, hmem, hP⟩)
    · exact ⟨x, List.mem_append_right _ (List.mem_cons_self _ _), hP⟩
    · rcases List.mem_append.1 hmem with hA | hB
      · exact ⟨cell, List.mem_append_left _ hA, hP⟩
      · rcases List.mem_cons.1 hB with rfl | hB
        · exact absurd hP hy
        · exact ⟨cell, List.mem_append_right _ (List.mem_cons_of_mem _ hB), hP⟩

/-! ### `url.Parse` on a string of ASCII letters -/

/-- What the parser tests on a letter: it is no control byte and none of the bytes with a
meaning in a URL, it is a scheme byte, and it is not escaped in a path. -/
theorem isASCIILetter.facts : ∀ b : Byte, isASCIILetter b →
    ¬ (b < chr ' ' ∨ b = 0x7f) ∧ b ≠ chr '*' ∧ b ≠ chr '#' ∧ b ≠ chr '?' ∧ b ≠ chr '/' ∧
    b ≠ chr ':' ∧ b ≠ chr '%' ∧ b ≠ chr '+' ∧ url.shouldEscape b .encodePath = false := by
  decide

theorem strings.indexLoop_not_mem (c : Byte) : ∀ (s : GoString) (i : Nat), c ∉ s →
    strings.indexLoop s [c] i = -1 := by
  intro s
  induction s with
  | nil => intro i _; simp [strings.indexLoop]
  | cons x rest ih =>
    intro i hc
    have hx : x ≠ c := fun h => hc (h ▸ List.mem_cons_self _ _)
    have hp : strings.HasPrefix (x :: rest) [c] = false := by
      simp [strings.HasPrefix, hx]
    unfold strings.indexLoop
    rw [hp]
    simp only [Bool.false_eq_true, if_false]
    exact ih (i + 1) (fun h => hc (List.mem_cons_of_mem _ h))

/-- A byte that does not occur in `s` is not found by `Index`. -/
theorem strings.Index_not_mem (c : Byte) (s : GoString) (h : c ∉ s) :
    strings.Index s [c] = -1 := strings.indexLoop_not_mem c s 0 h

theorem strings.Cut_not_mem (c : Byte) (s : GoString) (h : c ∉ s) :
    strings.Cut s [c] = (s, [], false) := by
  simp [strings.Cut, strings.Index_not_mem c s h]

theorem strings.Contains_not_mem (c : Byte) (s : GoString) (h : c ∉ s) :
    strings.Contains s [c] = false := by
  simp [strings.Contains, strings.Index_not_mem c s h]

theorem url.getSchemeLoop_letters (rawURL : GoString) : ∀ (s : GoString) (i : Nat),
    (∀ b ∈ s, isASCIILetter b) → url.getSchemeLoop rawURL s i = ([], rawURL, none) := by
  intro s
  induction s with
  | nil => intro i _; rfl
  | cons x rest ih =>
    intro i h
    have hx : (chr 'a' ≤ x ∧ x ≤ chr 'z') ∨ (chr 'A' ≤ x ∧ x ≤ chr 'Z') :=
      h x (List.mem_cons_self _ _)
    unfold url.getSchemeLoop
    rw [if_pos hx]
    exact ih (i + 1) (fun b hb => h b (List.mem_cons_of_mem _ hb))

theorem url.unescapeCheck_letters : ∀ (s : GoString) (n : Nat) (hasPlus : Bool),
    (∀ b ∈ s, isASCIILetter b) →
    url.unescapeCheck .encodePath s n hasPlus = .ok (n, hasPlus) := by
  intro s
  induction s with
  | nil => intro n hp _; rfl
  | cons x rest ih =>
    intro n hp h
    have hf := isASCIILetter.facts x (h x (List.mem_cons_self _ _))
    have h1 : x ≠ chr '%' := hf.2.2.2.2.2.2.1
    have h2 : x ≠ chr '+' := hf.2.2.2.2.2.2.2.1
    unfold url.unescapeCheck
    rw [if_neg h1, if_neg h2, if_neg (by simp)]
    exact ih n hp (fun b hb => h b (List.mem_cons_of_mem _ hb))

theorem url.unescape_letters (s : GoString) (h : ∀ b ∈ s, isASCIILetter b) :
    url.unescape s .encodePath = (s, none) := by
  simp [url.unescape, url.unescapeCheck_letters s 0 false h]

theorem url.escape_letters (s : GoString) (h : ∀ b ∈ s, isASCIILetter b) :
    url.escape s .encodePath = s := by
  have hs : ∀ b ∈ s, url.shouldEscape b .encodePath = false :=
    fun b hb => (isASCIILetter.facts b (h b hb)).2.2.2.2.2.2.2.2
  have h1 : s.countP (fun c => url.shouldEscape c .encodePath &&
      decide (c = chr ' ' ∧ url.encoding.encodePath = url.encoding.encodeQueryComponent)) = 0 := by
    rw [List.countP_eq_zero]
    intro b hb
    simp [hs b hb]
  have h2 : s.countP (fun c => url.shouldEscape c .encodePath &&
      !decide (c = chr ' ' ∧ url.encoding.encodePath = url.encoding.encodeQueryComponent)) = 0 := by
    rw [List.countP_eq_zero]
    intro b hb
    simp [hs b hb]
  unfold url.escape
  simp only [h1, h2, and_self, if_true]

theorem GoString.not_mem_of_letters (s : GoString) (h : ∀ b ∈ s, isASCIILetter b) (c : Byte)
    (hc : ¬ isASCIILetter c) : c ∉ s := fun hm => hc (h c hm)

/-- `parse` on a non-empty string of letters: only the path is set. -/
theorem url.parse_letters (s : GoString) (hne : s ≠ []) (h : ∀ b ∈ s, isASCIILetter b) :
    url.parse s false = .ok { Path := s } := by
  have hctl : url.stringContainsCTLByte s = false := by
    unfold url.stringContainsCTLByte
    rw [List.any_eq_false]
    intro b hb
    have := (isASCIILetter.facts b (h b hb)).1
    simpa using this
  have hstar : s ≠ str "*" := by
    intro he
    have := h (chr '*') (by rw [he]; decide)
    revert this; decide
  have hq : chr '?' ∉ s := GoString.not_mem_of_letters s h _ (by decide)
  have hsl : chr '/' ∉ s := GoString.not_mem_of_letters s h _ (by decide)
  have hco : chr ':' ∉ s := GoString.not_mem_of_letters s h _ (by decide)
  have hcount : strings.Count s [chr '?'] = 0 := by
    simp [strings.Count, List.count_eq_zero_of_not_mem hq]
  have hpre : strings.HasPrefix s [chr '/'] = false := by
    cases s with
    | nil => exact absurd rfl hne
    | cons x rest =>
      have hx : x ≠ chr '/' := fun he => hsl (he ▸ List.mem_cons_self _ _)
      simp [strings.HasPrefix, hx]
  have hpre2 : strings.HasPrefix s (str "//") = false := by
    cases s with
    | nil => exact absurd rfl hne
    | cons x rest =>
      have hx : x ≠ chr '/' := fun he => hsl (he ▸ List.mem_cons_self _ _)
      have e : str "//" = [chr '/', chr '/'] := by decide
      rw [e]
      simp [strings.HasPrefix, hx]
  unfold url.parse
  simp only [hctl, Bool.false_eq_true, if_false, hne, false_and, hstar, url.getScheme,
    url.getSchemeLoop_letters s s 0 h, strings.ToLower, List.map_nil, hcount, and_false,
    strings.Cut_not_mem _ s hq, hpre, Bool.not_false, true_and, ne_eq, not_true_eq_false,
    strings.Cut_not_mem _ s hsl, strings.Contains_not_mem _ s hco, hpre2, or_false,
    url.URL.setPath, url.unescape_letters s h, url.escape_letters s h, zero_ne_one]
  simp

/-- `url.Parse` on a non-empty string of letters returns a URL with that path, no scheme,
no host, and no error. -/
theorem url.Parse_letters (s : GoString) (hne : s ≠ []) (h : ∀ b ∈ s, isASCIILetter b) :
    url.Parse s = (some { Path := s }, none) := by
  have hh : chr '#' ∉ s := GoString.not_mem_of_letters s h _ (by decide)
  unfold url.Parse
  simp only [strings.Cut_not_mem _ s hh, url.parse_letters s hne h, if_true]

/-- The string form of a URL that has only a path of letters is that path. -/
theorem url.URL.String_letters (s : GoString) (h : ∀ b ∈ s, isASCIILetter b) :
    url.URL.String (some { Path := s }) = .ok s := by
  have hsl : chr '/' ∉ s := GoString.not_mem_of_letters s h _ (by decide)
  have hco : chr ':' ∉ s := GoString.not_mem_of_letters s h _ (by decide)
  have hstar : s ≠ str "*" := by
    intro he
    have := h (chr '*') (by rw [he]; decide)
    revert this; decide
  have hp : url.URL.EscapedPath { Path := s } = s := by
    simp [url.URL.EscapedPath, hstar, url.escape_letters s h]
  unfold url.URL.String
  simp [hp, strings.Cut_not_mem _ s hsl, strings.Contains_not_mem _ s hco]

/-! ### The count of runes against the count of bytes -/

/-- A string never has more runes than bytes. -/
theorem utf8.RuneCountInString_le_length (s : GoString) :
    utf8.RuneCountInString s ≤ s.length := by
  suffices h : ∀ (n : Nat) (s : GoString), s.length = n →
      utf8.RuneCountInString s ≤ s.length from h _ s rfl
  intro n
  induction n using Nat.strong_induction_on with
  | _ n ih =>
    intro s hn
    cases s with
    | nil => simp [utf8.RuneCountInString_nil]
    | cons c rest =>
      have hpos := utf8.runeStep_pos (c :: rest)
      rw [utf8.RuneCountInString_cons]
      have hlen : ((c :: rest).drop (utf8.runeStep (c :: rest))).length < n := by
        rw [← hn]; simp only [List.length_drop, List.length_cons]; omega
      have := ih _ hlen _ rfl
      simp only [List.length_drop, List.length_cons] at this hn ⊢
      omega

/-- The encoding of a code point has one byte when the code point is ASCII and at least two
otherwise. -/
theorem utf8.AppendRune_length (v : Nat) (hv : v < 0xD800 ∨ (0xDFFF < v ∧ v < 0x110000)) :
    (v < 0x80 → (utf8.AppendRune [] v).length = 1) ∧
    (0x80 ≤ v → 2 ≤ (utf8.AppendRune [] v).length) := by
  constructor
  · intro h; rw [utf8.AppendRune_one v h]; rfl
  · intro h
    by_cases c2 : v < 0x800
    · rw [utf8.AppendRune_two v h c2]; simp
    by_cases c3 : v < 0x10000
    · rw [utf8.AppendRune_three v (by omega) c3 (by omega)]; simp
    · rw [utf8.AppendRune_four v (by omega) (by omega)]; simp

/-- The bytes and runes of the Go string that holds a text: there are as many runes as
code points, at least as many bytes, and as many bytes exactly when every code point is
ASCII. -/
theorem GoString.ofText_length (t : String) :
    utf8.RuneCountInString (GoString.ofText t) = t.length ∧
    t.length ≤ (GoString.ofText t).length ∧
    ((GoString.ofText t).length = t.length ↔ ∀ ch ∈ t.data, ch.toNat < 0x80) := by
  refine ⟨utf8.RuneCountInString_ofText t, ?_⟩
  rw [GoString.ofText_eq_flatMap]
  show t.data.length ≤ _ ∧ (_ = t.data.length ↔ _)
  induction t.data with
  | nil => simp
  | cons c cs ih =>
    obtain ⟨h1, h2⟩ := utf8.AppendRune_length c.toNat c.toNat_valid
    rw [List.flatMap_cons, List.length_append, List.length_cons]
    refine ⟨?_, ?_⟩
    · by_cases hc : c.toNat < 0x80
      · have := h1 hc; omega
      · have := h2 (by omega); omega
    · constructor
      · intro he
        have hc : c.toNat < 0x80 := by
          by_contra hc
          have := h2 (by omega); omega
        have := h1 hc
        intro ch hch
        rcases List.mem_cons.1 hch with rfl | hch
        · exact hc
        · exact (ih.2.1 (by omega)) ch hch
      · intro hall
        have hc := hall c (List.mem_cons_self _ _)
        have := h1 hc
        have := ih.2.2 (fun ch hch => hall ch (List.mem_cons_of_mem _ hch))
        omega

/-! ### Bytes that do not begin an encoding -/

section Utf8Decoding

open utf8

/-- The entries of `first` and `acceptRanges` for a byte `>= 0x80` that is not marked
invalid: the size of the sequence, the range of the first byte and the range that the
second byte must be in. -/
theorem utf8.first_cases : ∀ b : Byte, 0x80 ≤ b.val → first.getD b.val 0 ≠ xx →
    ((first.getD b.val 0 &&& 7) = 2 ∧ 0xC2 ≤ b.val ∧ b.val ≤ 0xDF ∧
      acceptRanges.getD (first.getD b.val 0 >>> 4) ⟨0, 0⟩ = ⟨0x80, 0xBF⟩) ∨
    ((first.getD b.val 0 &&& 7) = 3 ∧ 0xE0 ≤ b.val ∧ b.val ≤ 0xEF ∧
      acceptRanges.getD (first.getD b.val 0 >>> 4) ⟨0, 0⟩ =
        ⟨if b.val = 0xE0 then 0xA0 else 0x80, if b.val = 0xED then 0x9F else 0xBF⟩) ∨
    ((first.getD b.val 0 &&& 7) = 4 ∧ 0xF0 ≤ b.val ∧ b.val ≤ 0xF4 ∧
      acceptRanges.getD (first.getD b.val 0 >>> 4) ⟨0, 0⟩ =
        ⟨if b.val = 0xF0 then 0x90 else 0x80, if b.val = 0xF4 then 0x8F else 0xBF⟩) := by
  decide

/-- When the loop body of `RuneCountInString` steps over more than one byte, the bytes it
steps over pass every test of the loop body. -/
theorem utf8.runeStep_ne_one (s : GoString) (h : runeStep s ≠ 1) :
    0x80 ≤ byteAt s 0 ∧ first.getD (byteAt s 0) 0 ≠ xx ∧
    (first.getD (byteAt s 0) 0 &&& 7) ≤ s.length ∧
    (acceptRanges.getD (first.getD (byteAt s 0) 0 >>> 4) ⟨0, 0⟩).lo ≤ byteAt s 1 ∧
    byteAt s 1 ≤ (acceptRanges.getD (first.getD (byteAt s 0) 0 >>> 4) ⟨0, 0⟩).hi ∧
    ((first.getD (byteAt s 0) 0 &&& 7) ≠ 2 → 0x80 ≤ byteAt s 2 ∧ byteAt s 2 ≤ 0xBF) ∧
    ((first.getD (byteAt s 0) 0 &&& 7) ≠ 2 → (first.getD (byteAt s 0) 0 &&& 7) ≠ 3 →
      0x80 ≤ byteAt s 3 ∧ byteAt s 3 ≤ 0xBF) := by
  unfold runeStep at h
  simp only [RuneSelf, locb, hicb] at h
  split at h
  · exact absurd rfl h
  rename_i c1
  split at h
  · exact absurd rfl h
  rename_i c2
  split at h
  · exact absurd rfl h
  rename_i c3
  split at h
  · exact absurd rfl h
  rename_i c4
  refine ⟨by omega, c2, by omega, by omega, by omega, ?_, ?_⟩
  · intro h2
    rw [if_neg h2] at h
    split at h
    · exact absurd rfl h
    rename_i c6
    omega
  · intro h2 h3
    rw [if_neg h2] at h
    split at h
    · exact absurd rfl h
    try rw [if_neg h3] at h
    split at h
    · exact absurd rfl h
    rename_i c8
    omega

theorem byte_eq_of_val (n : Nat) (b : Byte) (h : n = b.val) : byte n = b := by
  apply Fin.ext
  rw [byte_val, h]
  exact Nat.mod_eq_of_lt b.isLt

theorem utf8.byteAt_zero (b : Byte) (tl : GoString) : byteAt (b :: tl) 0 = b.val := rfl

theorem utf8.byteAt_succ (b : Byte) (tl : GoString) (i : Nat) :
    byteAt (b :: tl) (i + 1) = byteAt tl i := rfl

/-- When the loop body of `RuneCountInString` steps over more than one byte, the string
begins with the encoding of a code point that is not ASCII. -/
theorem utf8.runeStep_decodes (s : GoString) (h : runeStep s ≠ 1) :
    ∃ v tail, 0x80 ≤ v ∧ (v < 0xD800 ∨ (0xDFFF < v ∧ v < 0x110000)) ∧
      s = AppendRune [] v ++ tail := by
  obtain ⟨h0, hx, hlen, hlo, hhi, h2, h3⟩ := utf8.runeStep_ne_one s h
  cases s with
  | nil => simp [byteAt] at h0
  | cons b0 s1 =>
    rw [byteAt_zero] at h0 hx hlen hlo hhi h2 h3
    rw [byteAt_succ] at hlo hhi h2 h3
    rcases utf8.first_cases b0 h0 hx with ⟨hs, r1, r2, hacc⟩ | ⟨hs, r1, r2, hacc⟩ |
      ⟨hs, r1, r2, hacc⟩
    · rw [hacc] at hlo hhi
      rw [hs] at hlen
      cases s1 with
      | nil => simp at hlen
      | cons b1 s2 =>
        rw [byteAt_zero] at hlo hhi
        simp only at hlo hhi
        refine ⟨(b0.val - 0xC0) * 64 + (b1.val - 0x80), s2, by omega, by omega, ?_⟩
        rw [utf8.AppendRune_two _ (by omega) (by omega)]
        simp only [List.cons_append, List.nil_append]
        rw [byte_eq_of_val _ b0 (by omega), byte_eq_of_val _ b1 (by omega)]
    · rw [hacc] at hlo hhi
      rw [hs] at hlen h2
      have h2' := h2 (by decide)
      cases s1 with
      | nil => simp at hlen
      | cons b1 s2 =>
        cases s2 with
        | nil => simp at hlen
        | cons b2 s3 =>
          rw [byteAt_zero] at hlo hhi
          rw [byteAt_succ, byteAt_zero] at h2'
          simp only at hlo hhi
          have hb1 : 0x80 ≤ b1.val ∧ b1.val ≤ 0xBF ∧ (b0.val = 0xE0 → 0xA0 ≤ b1.val) ∧
              (b0.val = 0xED → b1.val ≤ 0x9F) := by
            split at hlo <;> split at hhi <;> omega
          clear hlo hhi h2 h3
          refine ⟨(b0.val - 0xE0) * 4096 + (b1.val - 0x80) * 64 + (b2.val - 0x80), s3, ?_, ?_,
            ?_⟩
          · omega
          · omega
          · rw [utf8.AppendRune_three _ (by omega) (by omega) (by omega)]
            simp only [List.cons_append, List.nil_append]
            rw [byte_eq_of_val _ b0 (by omega), byte_eq_of_val _ b1 (by omega),
              byte_eq_of_val _ b2 (by omega)]
    · rw [hacc] at hlo hhi
      rw [hs] at hlen h2 h3
      have h2' := h2 (by decide)
      have h3' := h3 (by decide) (by decide)
      cases s1 with
      | nil => simp at hlen
      | cons b1 s2 =>
        cases s2 with
        | nil => simp at hlen
        | cons b2 s3 =>
          cases s3 with
          | nil => simp at hlen
          | cons b3 s4 =>
            rw [byteAt_zero] at hlo hhi
            rw [byteAt_succ, byteAt_zero] at h2'
            rw [byteAt_succ, byteAt_succ, byteAt_zero] at h3'
            simp only at hlo hhi
            have hb1 : 0x80 ≤ b1.val ∧ b1.val ≤ 0xBF ∧ (b0.val = 0xF0 → 0x90 ≤ b1.val) ∧
                (b0.val = 0xF4 → b1.val ≤ 0x8F) := by
              split at hlo <;> split at hhi <;> omega
            clear hlo hhi h2 h3
            refine ⟨(b0.val - 0xF0) * 262144 + (b1.val - 0x80) * 4096 + (b2.val - 0x80) * 64
              + (b3.val - 0x80), s4, ?_, ?_, ?_⟩
            · omega
            · omega
            · rw [utf8.AppendRune_four _ (by omega) (by omega)]
              simp only [List.cons_append, List.nil_append]
              rw [byte_eq_of_val _ b0 (by omega), byte_eq_of_val _ b1 (by omega),
                byte_eq_of_val _ b2 (by omega), byte_eq_of_val _ b3 (by omega)]

/-- A byte at the front of a string that does not begin the encoding of a code point that
is not ASCII counts as one rune by itself: an ASCII byte, a stray continuation byte, an
invalid first byte, or the first byte of a truncated, overlong or surrogate sequence. -/
theorem utf8.RuneCountInString_cons_single (b : Byte) (rest : GoString)
    (h : ¬ ∃ v tail, 0x80 ≤ v ∧ (v < 0xD800 ∨ (0xDFFF < v ∧ v < 0x110000)) ∧
      b :: rest = AppendRune [] v ++ tail) :
    RuneCountInString (b :: rest) = 1 + RuneCountInString rest := by
  have hstep : runeStep (b :: rest) = 1 := by
    by_contra hne
    exact h (utf8.runeStep_decodes _ hne)
  rw [utf8.RuneCountInString_cons, hstep]
  rfl

/-- The encoding of a code point that is not ASCII begins with a byte from `0xC2` to
`0xF4`. -/
theorem utf8.AppendRune_head (v : Nat) (hlo : 0x80 ≤ v)
    (hv : v < 0xD800 ∨ (0xDFFF < v ∧ v < 0x110000)) :
    ∃ b0 tl, AppendRune [] v = b0 :: tl ∧ 0xC2 ≤ b0.val ∧ b0.val ≤ 0xF4 := by
  by_cases c2 : v < 0x800
  · rw [utf8.AppendRune_two v hlo c2]
    exact ⟨_, _, rfl, by rw [byte_val]; omega, by rw [byte_val]; omega⟩
  by_cases c3 : v < 0x10000
  · rw [utf8.AppendRune_three v (by omega) c3 (by omega)]
    exact ⟨_, _, rfl, by rw [byte_val]; omega, by rw [byte_val]; omega⟩
  · rw [utf8.AppendRune_four v (by omega) (by omega)]
    exact ⟨_, _, rfl, by rw [byte_val]; omega, by rw [byte_val]; omega⟩

/-- A byte at the front of a string that can not begin an encoding, from `0x80` to `0xC1`
or from `0xF5` to `0xFF`, counts as one rune by itself. -/
theorem utf8.RuneCountInString_cons_invalid (b : Byte) (rest : GoString)
    (h : (0x80 ≤ b.val ∧ b.val < 0xC2) ∨ 0xF4 < b.val) :
    RuneCountInString (b :: rest) = 1 + RuneCountInString rest := by
  apply utf8.RuneCountInString_cons_single
  rintro ⟨v, tail, hlo, hv, he⟩
  obtain ⟨b0, tl, h0, h1, h2⟩ := utf8.AppendRune_head v hlo hv
  rw [h0, List.cons_append] at he
  have hb : b = b0 := (List.cons.inj he).1
  subst hb
  omega

end Utf8Decoding

/-! ## Lemmas about the accessors -/

/-- `OIDCUri` never returns `nil`. -/
theorem Config.OIDCUri_some (c : Config) : ∃ u, c.OIDCUri.1 = some u := by
  unfold Config.OIDCUri
  simp only
  split
  · exact ⟨_, rfl⟩
  · split
    · exact ⟨_, rfl⟩
    · rename_i result heq
      have h := url.Parse_nonnil c.options.OIDCUri (by rw [heq])
      rw [heq] at h
      exact h

/-- The shape of the report: it is always defined, and its rows are the nine pairs
below. -/
theorem Config.OIDCReport_eq (c : Config) :
    ∃ uri, url.URL.String c.OIDCUri.1 = .ok uri ∧
      c.OIDCReport = (.ok ([
          [str "oidc-uri", uri],
          [str "oidc-insecure", fmt.Sprintf_t c.options.OIDCInsecure],
          [str "oidc-client", c.options.OIDCClient],
          [str "oidc-secret",
            List.replicate (utf8.RuneCountInString c.options.OIDCSecret) (chr '*')],
          [str "oidc-scopes", c.OIDCScopes],
          [str "oidc-register", fmt.Sprintf_t c.options.OIDCRegister],
          [str "oidc-redirect", fmt.Sprintf_t c.options.OIDCRedirect],
          [str "oidc-provider", c.options.OIDCProvider],
          [str "oidc-provider-icon", c.options.OIDCProviderIcon]],
        [str "Name", str "Value"]), c.OIDCUri.2) := by
  obtain ⟨u, hu⟩ := c.OIDCUri_some
  obtain ⟨uri, huri⟩ := url.URL.String_some u
  refine ⟨uri, by rw [hu, huri], ?_⟩
  unfold Config.OIDCReport
  simp only [hu, huri, strings.Repeat_star, Config.OIDCSecret, Config.OIDCInsecure,
    Config.OIDCClient, Config.OIDCRegister, Config.OIDCRedirect, Config.OIDCProvider,
    Config.OIDCProviderIcon]

/-! ### The state-passing accessors against the functions of the configuration -/

theorem Call.OIDCScopes_refines (w : World) : Call.OIDCScopes w = (w.config.OIDCScopes, w) := by
  unfold Call.OIDCScopes Config.OIDCScopes
  split <;> rfl

/-- `OIDCUri` as an operation on the state returns what the function of the configuration
returns, keeps the configuration and appends the records the function lists to the log. -/
theorem Call.OIDCUri_refines (w : World) :
    Call.OIDCUri w = (w.config.OIDCUri.1, { w with log := w.log ++ w.config.OIDCUri.2 }) := by
  unfold Call.OIDCUri Config.OIDCUri
  simp only
  split
  · simp
  · split <;> simp [Call.Errorf]

/-- `OIDCReport` as an operation on the state returns what the function of the
configuration returns, keeps the configuration and appends the records of `OIDCUri` to the
log. -/
theorem Call.OIDCReport_refines (w : World) :
    Call.OIDCReport w
      = (w.config.OIDCReport.1, { w with log := w.log ++ w.config.OIDCReport.2 }) := by
  obtain ⟨uri, huri, h⟩ := w.config.OIDCReport_eq
  unfold Call.OIDCReport
  simp only [Call.OIDCUri_refines, huri, strings.Repeat_star, Call.OIDCInsecure, Call.OIDCClient,
    Call.OIDCSecret, Call.OIDCRegister, Call.OIDCRedirect, Call.OIDCProvider,
    Call.OIDCProviderIcon, Call.OIDCScopes_refines, h]

/-! ## The claims -/

/-- C1: `OIDCEnabled` returns true if and only if the options `OIDCUri`, `OIDCClient` and
`OIDCSecret` are all non-empty; if any one of the three is empty it returns false, whatever
the other options are. -/
theorem OIDCEnabled_iff_all_nonempty (c : Config) :
    (c.OIDCEnabled = true ↔
      c.options.OIDCUri ≠ [] ∧ c.options.OIDCClient ≠ [] ∧ c.options.OIDCSecret ≠ []) ∧
    ((c.options.OIDCUri = [] ∨ c.options.OIDCClient = [] ∨ c.options.OIDCSecret = []) →
      c.OIDCEnabled = false) := by
  unfold Config.OIDCEnabled
  constructor
  · simp [and_assoc]
  · rintro (h | h | h) <;> simp [h]

/-- C1, at concrete configurations: with the three options set OIDC is enabled, whatever
the other six options are, and it is disabled when none is set. -/
theorem OIDCEnabled_iff_all_nonempty_witness :
    Config.enabled.OIDCEnabled = true ∧ Config.allSet.OIDCEnabled = true ∧
    Config.unset.OIDCEnabled = false :=
  ⟨((OIDCEnabled_iff_all_nonempty Config.enabled).1).2 (by decide),
    ((OIDCEnabled_iff_all_nonempty Config.allSet).1).2 (by decide),
    (OIDCEnabled_iff_all_nonempty Config.unset).2 (Or.inl (by decide))⟩

/-- C2: the value of the `oidc-secret` row, the 4th row of `OIDCReport`, consists solely
of `*` bytes and their number is the number of runes of `OIDCSecret()`, which for a secret
that holds a text is the number of Unicode code points of the text; for an empty secret
the value is the empty string, and for the secret `xyz123` it is `******`. -/
theorem OIDCReport_secret_row_asterisks (c : Config) :
    ∃ rows cols value, c.OIDCReport.1 = .ok (rows, cols) ∧
      rows[3]? = some [str "oidc-secret", value] ∧
      (∀ b ∈ value, b = chr '*') ∧
      value.length = utf8.RuneCountInString c.OIDCSecret ∧
      (∀ t : String, c.OIDCSecret = GoString.ofText t → value.length = t.length) ∧
      (c.OIDCSecret = [] → value = []) ∧
      (c.OIDCSecret = str "xyz123" → value = str "******") := by
  obtain ⟨uri, -, h⟩ := c.OIDCReport_eq
  rw [h]
  refine ⟨_, _, _, rfl, rfl, ?_, ?_, ?_, ?_, ?_⟩
  · intro b hb; exact List.eq_of_mem_replicate hb
  · simp [Config.OIDCSecret]
  · intro t ht
    simp only [Config.OIDCSecret] at ht
    rw [List.length_replicate, ht, utf8.RuneCountInString_ofText]
  · intro he
    simp only [Config.OIDCSecret] at he
    rw [he]; rfl
  · intro he
    simp only [Config.OIDCSecret] at he
    rw [he]; decide

/-- C2, at the secret `xyz123` and at a secret of 6 code points in 9 bytes. -/
theorem OIDCReport_secret_row_asterisks_witness :
    (∃ rows cols, Config.enabled.OIDCReport.1 = .ok (rows, cols) ∧
      rows[3]? = some [str "oidc-secret", str "******"]) ∧
    (∃ rows cols, (Config.enabled.setOIDCSecret (str "héllo€")).OIDCReport.1 = .ok (rows, cols) ∧
      rows[3]? = some [str "oidc-secret", str "******"]) ∧
    (str "héllo€").length = 9 ∧
    (∃ rows cols, Config.unset.OIDCReport.1 = .ok (rows, cols) ∧
      rows[3]? = some [str "oidc-secret", []]) := by
  refine ⟨?_, ?_, by decide, ?_⟩
  · obtain ⟨rows, cols, value, h, hrow, -, -, -, -, hv⟩ :=
      OIDCReport_secret_row_asterisks Config.enabled
    exact ⟨rows, cols, h, by rw [hrow, hv (by decide)]⟩
  · obtain ⟨rows, cols, value, h, hrow, hall, -, ht, -, -⟩ :=
      OIDCReport_secret_row_asterisks (Config.enabled.setOIDCSecret (str "héllo€"))
    refine ⟨rows, cols, h, ?_⟩
    have hlen := ht "héllo€" rfl
    have hv : value = List.replicate value.length (chr '*') := List.eq_replicate_of_mem hall
    rw [hrow, hv, hlen]
    decide
  · obtain ⟨rows, cols, value, h, hrow, -, -, -, he, -⟩ :=
      OIDCReport_secret_row_asterisks Config.unset
    exact ⟨rows, cols, h, by rw [hrow, he (by decide)]⟩

/-- C3, as stated, fails: when the secret equals the client ID, here `abc`, the
`oidc-client` cell of the report holds the secret; and when the secret consists of
asterisks, here `*`, the redacted value of the `oidc-secret` row is the secret itself. -/
theorem OIDCReport_cell_may_hold_secret :
    (Config.enabled.setOIDCSecret (str "abc")).OIDCReport.1 = .ok ([
        [str "oidc-uri", str "https://idp.example.com"],
        [str "oidc-insecure", str "false"],
        [str "oidc-client", str "abc"],
        [str "oidc-secret", str "***"],
        [str "oidc-scopes", str "openid email profile"],
        [str "oidc-register", str "false"],
        [str "oidc-redirect", str "false"],
        [str "oidc-provider", []],
        [str "oidc-provider-icon", []]],
      [str "Name", str "Value"]) ∧
    strings.Contains (str "abc") (Config.enabled.setOIDCSecret (str "abc")).OIDCSecret = true ∧
    (Config.enabled.setOIDCSecret (str "*")).OIDCReport.1 = .ok ([
        [str "oidc-uri", str "https://idp.example.com"],
        [str "oidc-insecure", str "false"],
        [str "oidc-client", str "abc"],
        [str "oidc-secret", str "*"],
        [str "oidc-scopes", str "openid email profile"],
        [str "oidc-register", str "false"],
        [str "oidc-redirect", str "false"],
        [str "oidc-provider", []],
        [str "oidc-provider-icon", []]],
      [str "Name", str "Value"]) ∧
    strings.Contains (str "*") (Config.enabled.setOIDCSecret (str "*")).OIDCSecret = true := by
  decide

/-- C3, amended: for a non-empty secret, the redacted value of the `oidc-secret` row
contains the secret only when the secret consists solely of `*` bytes; every other row of
the report is the row of the configuration with the secret cleared; so a cell of the report
contains the secret exactly when the secret consists solely of `*` bytes or a cell of the
report for the cleared secret (a label, or the value of another option, which is reported
as it is) contains it. -/
theorem OIDCReport_secret_only_in_other_cells (c : Config) (h : c.options.OIDCSecret ≠ []) :
    ∃ rows cols rows0, c.OIDCReport.1 = .ok (rows, cols) ∧
      (c.setOIDCSecret []).OIDCReport.1 = .ok (rows0, cols) ∧
      (∃ value, rows[3]? = some [str "oidc-secret", value] ∧
        rows0[3]? = some [str "oidc-secret", []] ∧
        (strings.Contains value c.options.OIDCSecret = true ↔
          ∀ b ∈ c.options.OIDCSecret, b = chr '*')) ∧
      (∀ i, i ≠ 3 → rows[i]? = rows0[i]?) ∧
      ((∃ cell ∈ rows.flatten, strings.Contains cell c.options.OIDCSecret = true) ↔
        ((∀ b ∈ c.options.OIDCSecret, b = chr '*') ∨
          ∃ cell ∈ rows0.flatten, strings.Contains cell c.options.OIDCSecret = true)) := by
  obtain ⟨uri, huri, e⟩ := c.OIDCReport_eq
  obtain ⟨uri0, huri0, e0⟩ := (c.setOIDCSecret []).OIDCReport_eq
  have hu : (c.setOIDCSecret []).OIDCUri = c.OIDCUri := rfl
  rw [hu, huri] at huri0
  cases huri0
  have hval : strings.Contains
      (List.replicate (utf8.RuneCountInString c.options.OIDCSecret) (chr '*'))
      c.options.OIDCSecret = true ↔ ∀ b ∈ c.options.OIDCSecret, b = chr '*' := by
    rw [strings.Contains_replicate]
    constructor
    · exact fun hc => hc.1
    · intro hall
      refine ⟨hall, ?_⟩
      rw [utf8.RuneCountInString_ascii]
      intro b hb
      rw [hall b hb]
      decide
  rw [e, e0]
  refine ⟨_, _, _, rfl, rfl, ⟨_, rfl, rfl, hval⟩, ?_, ?_⟩
  · intro i hi
    rcases i with _ | _ | _ | _ | _ | _ | _ | _ | _ | i
    all_goals first | rfl | exact absurd rfl hi
  · rw [← hval]
    exact exists_mem_replace_cell (fun cell => strings.Contains cell c.options.OIDCSecret = true)
      [str "oidc-uri", uri, str "oidc-insecure", fmt.Sprintf_t c.options.OIDCInsecure,
        str "oidc-client", c.options.OIDCClient, str "oidc-secret"]
      [str "oidc-scopes", c.OIDCScopes, str "oidc-register",
        fmt.Sprintf_t c.options.OIDCRegister, str "oidc-redirect",
        fmt.Sprintf_t c.options.OIDCRedirect, str "oidc-provider", c.options.OIDCProvider,
        str "oidc-provider-icon", c.options.OIDCProviderIcon]
      _ []
      (by rw [Bool.not_eq_true]; exact strings.Contains_nil_left _ h)

/-- C3 amended, at the secret `xyz123`, which no label and no other value contains: no
cell of the report contains it. -/
theorem OIDCReport_secret_only_in_other_cells_witness :
    ∃ rows cols, Config.enabled.OIDCReport.1 = .ok (rows, cols) ∧
      ∀ cell ∈ rows.flatten, strings.Contains cell (str "xyz123") = false := by
  obtain ⟨rows, cols, rows0, h, h0, -, -, hiff⟩ :=
    OIDCReport_secret_only_in_other_cells Config.enabled (by decide)
  refine ⟨rows, cols, h, ?_⟩
  intro cell hcell
  rw [← Bool.not_eq_true]
  intro hc
  have hex := hiff.1 ⟨cell, hcell, hc⟩
  have e0 : (Config.enabled.setOIDCSecret []).OIDCReport.1 = .ok ([
        [str "oidc-uri", str "https://idp.example.com"],
        [str "oidc-insecure", str "false"],
        [str "oidc-client", str "abc"],
        [str "oidc-secret", []],
        [str "oidc-scopes", str "openid email profile"],
        [str "oidc-register", str "false"],
        [str "oidc-redirect", str "false"],
        [str "oidc-provider", []],
        [str "oidc-provider-icon", []]],
      [str "Name", str "Value"]) := by decide
  rw [e0] at h0
  cases h0
  revert hex
  decide

/-- C4: only the length of the secret reaches the report: two configurations that agree on
all OIDC options except `OIDCSecret`, and whose secrets have the same number of runes,
have the same report: the same rows and the same column headers. -/
theorem OIDCReport_secret_only_by_rune_count (c₁ c₂ : Config)
    (hagree : c₁.options.OIDCUri = c₂.options.OIDCUri ∧
      c₁.options.OIDCInsecure = c₂.options.OIDCInsecure ∧
      c₁.options.OIDCClient = c₂.options.OIDCClient ∧
      c₁.options.OIDCScopes = c₂.options.OIDCScopes ∧
      c₁.options.OIDCRegister = c₂.options.OIDCRegister ∧
      c₁.options.OIDCRedirect = c₂.options.OIDCRedirect ∧
      c₁.options.OIDCProvider = c₂.options.OIDCProvider ∧
      c₁.options.OIDCProviderIcon = c₂.options.OIDCProviderIcon)
    (hcount : utf8.RuneCountInString c₁.OIDCSecret = utf8.RuneCountInString c₂.OIDCSecret) :
    c₁.OIDCReport = c₂.OIDCReport ∧
    ∃ rows cols, c₁.OIDCReport.1 = .ok (rows, cols) ∧ c₂.OIDCReport.1 = .ok (rows, cols) := by
  obtain ⟨hUri, hInsecure, hClient, hScopes, hRegister, hRedirect, hProvider, hIcon⟩ := hagree
  have huri : c₁.OIDCUri = c₂.OIDCUri := by simp only [Config.OIDCUri, hUri]
  have hscopes : c₁.OIDCScopes = c₂.OIDCScopes := by simp only [Config.OIDCScopes, hScopes]
  obtain ⟨uri₁, h₁, e₁⟩ := c₁.OIDCReport_eq
  obtain ⟨uri₂, h₂, e₂⟩ := c₂.OIDCReport_eq
  rw [huri, h₂] at h₁
  cases h₁
  simp only [Config.OIDCSecret] at hcount
  have heq : c₁.OIDCReport = c₂.OIDCReport := by
    rw [e₁, e₂, huri, hscopes, hInsecure, hClient, hRegister, hRedirect, hProvider, hIcon,
      hcount]
  refine ⟨heq, ?_⟩
  rw [heq, e₂]
  exact ⟨_, _, rfl, rfl⟩

/-- C4, at two configurations whose secrets `xyz123` (6 bytes) and `héllo€` (9 bytes) both
have 6 runes. -/
theorem OIDCReport_secret_only_by_rune_count_witness :
    Config.enabled.OIDCReport = (Config.enabled.setOIDCSecret (str "héllo€")).OIDCReport ∧
    ∃ rows cols, Config.enabled.OIDCReport.1 = .ok (rows, cols) ∧
      (Config.enabled.setOIDCSecret (str "héllo€")).OIDCReport.1 = .ok (rows, cols) :=
  OIDCReport_secret_only_by_rune_count Config.enabled
    (Config.enabled.setOIDCSecret (str "héllo€")) (by decide) (by decide)

/-- C5: `OIDCScopes` returns the default `openid email profile` when the option
`OIDCScopes` is empty and the option verbatim otherwise; setting the option to a non-empty
value and then back to empty gives the default again. -/
theorem OIDCScopes_default_or_verbatim (c : Config) :
    OIDCDefaultScopes = str "openid email profile" ∧
    (c.options.OIDCScopes = [] → c.OIDCScopes = OIDCDefaultScopes) ∧
    (c.options.OIDCScopes ≠ [] → c.OIDCScopes = c.options.OIDCScopes) ∧
    (∀ s : GoString, s ≠ [] →
      (c.setOIDCScopes s).OIDCScopes = s ∧
      ((c.setOIDCScopes s).setOIDCScopes []).OIDCScopes = OIDCDefaultScopes) := by
  refine ⟨rfl, ?_, ?_, ?_⟩
  · intro h; simp [Config.OIDCScopes, h]
  · intro h; simp [Config.OIDCScopes, h]
  · intro s hs
    simp [Config.OIDCScopes, Config.setOIDCScopes, hs]

/-- C5, at concrete configurations. -/
theorem OIDCScopes_default_or_verbatim_witness :
    Config.unset.OIDCScopes = str "openid email profile" ∧
    Config.allSet.OIDCScopes = str "openid" ∧
    ((Config.unset.setOIDCScopes (str "openid")).setOIDCScopes []).OIDCScopes
      = str "openid email profile" :=
  ⟨(OIDCScopes_default_or_verbatim Config.unset).2.1 (by decide),
    (OIDCScopes_default_or_verbatim Config.allSet).2.2.1 (by decide),
    ((OIDCScopes_default_or_verbatim Config.unset).2.2.2 (str "openid") (by decide)).2⟩

/-- C6: whichever options are set, `OIDCReport` returns exactly 9 rows and the column
headers `Name`, `Value`; every row has exactly 2 cells, as many as there are headers. -/
theorem OIDCReport_nine_rows_two_columns (c : Config) :
    ∃ rows cols, c.OIDCReport.1 = .ok (rows, cols) ∧
      rows.length = 9 ∧ cols = [str "Name", str "Value"] ∧
      ∀ row ∈ rows, row.length = 2 ∧ row.length = cols.length := by
  obtain ⟨uri, -, h⟩ := c.OIDCReport_eq
  rw [h]
  refine ⟨_, _, rfl, rfl, rfl, ?_⟩
  intro row hrow
  simp only [List.mem_cons, List.mem_singleton, List.not_mem_nil, or_false] at hrow
  rcases hrow with h | h | h | h | h | h | h | h | h <;> subst h <;> exact ⟨rfl, rfl⟩

/-- C7: the rows of `OIDCReport` are, in this order, the issuer URI as
`OIDCUri().String()`, the insecure flag as `true` or `false`, the client ID, the redacted
secret, `OIDCScopes()` (never the empty string), the register flag, the redirect flag, the
provider name and the provider icon, with the labels `oidc-uri`, `oidc-insecure`,
`oidc-client`, `oidc-secret`, `oidc-scopes`, `oidc-register`, `oidc-redirect`,
`oidc-provider`, `oidc-provider-icon`. -/
theorem OIDCReport_rows_in_order (c : Config) :
    ∃ uri, url.URL.String c.OIDCUri.1 = .ok uri ∧
      c.OIDCReport.1 = .ok ([
          [str "oidc-uri", uri],
          [str "oidc-insecure", if c.OIDCInsecure = true then str "true" else str "false"],
          [str "oidc-client", c.OIDCClient],
          [str "oidc-secret", List.replicate (utf8.RuneCountInString c.OIDCSecret) (chr '*')],
          [str "oidc-scopes", c.OIDCScopes],
          [str "oidc-register", if c.OIDCRegister = true then str "true" else str "false"],
          [str "oidc-redirect", if c.OIDCRedirect = true then str "true" else str "false"],
          [str "oidc-provider", c.OIDCProvider],
          [str "oidc-provider-icon", c.OIDCProviderIcon]],
        [str "Name", str "Value"]) ∧
      c.OIDCScopes ≠ [] ∧
      (c.options.OIDCScopes = [] → c.OIDCScopes = str "openid email profile") := by
  obtain ⟨uri, huri, h⟩ := c.OIDCReport_eq
  refine ⟨uri, huri, ?_, ?_, ?_⟩
  · rw [h]; rfl
  · unfold Config.OIDCScopes
    split
    · decide
    · assumption
  · intro hs
    simp [Config.OIDCScopes, hs, OIDCDefaultScopes]

/-- C7, at a configuration with all nine options set. -/
theorem OIDCReport_rows_in_order_witness :
    Config.allSet.OIDCReport.1 = .ok ([
        [str "oidc-uri", str "https://idp.example.com"],
        [str "oidc-insecure", str "true"],
        [str "oidc-client", str "abc"],
        [str "oidc-secret", str "******"],
        [str "oidc-scopes", str "openid"],
        [str "oidc-register", str "true"],
        [str "oidc-redirect", str "true"],
        [str "oidc-provider", str "idp"],
        [str "oidc-provider-icon", str "/icon.svg"]],
      [str "Name", str "Value"]) ∧
    Config.unset.OIDCReport.1 = .ok ([
        [str "oidc-uri", []],
        [str "oidc-insecure", str "false"],
        [str "oidc-client", []],
        [str "oidc-secret", []],
        [str "oidc-scopes", str "openid email profile"],
        [str "oidc-register", str "false"],
        [str "oidc-redirect", str "false"],
        [str "oidc-provider", []],
        [str "oidc-provider-icon", []]],
      [str "Name", str "Value"]) := by
  obtain ⟨uri, huri, h, -⟩ := OIDCReport_rows_in_order Config.allSet
  refine ⟨?_, by decide⟩
  rw [h]
  have : url.URL.String Config.allSet.OIDCUri.1 = .ok (str "https://idp.example.com") := by
    decide
  rw [this] at huri
  cases huri
  decide

/-- C8: when the option `OIDCUri` is non-empty and `url.Parse` returns an error for it,
`OIDCUri` returns the zero URL, whose string form is the empty string, and logs the error
instead of returning it; for every configuration `OIDCUri` returns a URL that is not `nil`,
its string form is defined, and `OIDCReport` returns its table without a panic. -/
theorem OIDCUri_absorbs_parse_error (c : Config) :
    (c.options.OIDCUri ≠ [] → ∀ err, (url.Parse c.options.OIDCUri).2 = some err →
      c.OIDCUri.1 = some {} ∧ url.URL.String c.OIDCUri.1 = .ok [] ∧
      c.OIDCUri.2 = [⟨"oidc: failed to parse issuer URI (%s)", err⟩]) ∧
    (∃ u, c.OIDCUri.1 = some u) ∧
    (∃ s, url.URL.String c.OIDCUri.1 = .ok s) ∧
    (∃ rows cols, c.OIDCReport.1 = .ok (rows, cols)) := by
  refine ⟨?_, c.OIDCUri_some, ?_, ?_⟩
  · intro hne err herr
    have h : c.OIDCUri = (some {}, [⟨"oidc: failed to parse issuer URI (%s)", err⟩]) := by
      unfold Config.OIDCUri
      simp only [if_neg hne]
      split
      · rename_i e he
        rw [he] at herr
        cases herr
        rfl
      · rename_i r he
        rw [he] at herr
        cases herr
    rw [h]
    exact ⟨rfl, url.URL.String_zero, rfl⟩
  · obtain ⟨uri, h, -⟩ := c.OIDCReport_eq
    exact ⟨uri, h⟩
  · obtain ⟨uri, -, h⟩ := c.OIDCReport_eq
    rw [h]
    exact ⟨_, _, rfl⟩

/-- C8, at the issuer URI `:`, which `url.Parse` rejects with `missing protocol scheme`. -/
theorem OIDCUri_absorbs_parse_error_witness :
    (url.Parse Config.malformedUri.options.OIDCUri).2
      = some ⟨"parse", str ":", .New "missing protocol scheme"⟩ ∧
    Config.malformedUri.OIDCUri.1 = some {} ∧
    url.URL.String Config.malformedUri.OIDCUri.1 = .ok [] ∧
    Config.malformedUri.OIDCUri.2 = [⟨"oidc: failed to parse issuer URI (%s)",
      ⟨"parse", str ":", .New "missing protocol scheme"⟩⟩] :=
  ⟨by decide, (OIDCUri_absorbs_parse_error Config.malformedUri).1 (by decide) _ (by decide)⟩

/-- C9, as stated, fails: `url.Parse` accepts `not a valid uri???::` (no scheme, path
`not a valid uri`, query `??::`), so the string form of `OIDCUri()` is not empty but
`not%20a%20valid%20uri???::`, and nothing is logged. -/
theorem OIDCUri_oddUri_string_nonempty :
    url.URL.String Config.oddUri.OIDCUri.1 = .ok (str "not%20a%20valid%20uri???::") ∧
    decide (url.URL.String Config.oddUri.OIDCUri.1 = .ok []) = false ∧
    (url.Parse (str "not a valid uri???::")).2 = none ∧
    Config.oddUri.OIDCUri.2 = [] := by
  decide

/-- C9, amended: for the issuer URI `not a valid uri???::` the call `url.Parse` succeeds
with path `not a valid uri` and query `??::`, `OIDCUri()` returns that URL and its string
form is `not%20a%20valid%20uri???::`; an issuer URI that `url.Parse` rejects, such as
`not a valid uri:???::` (a colon in the first path segment), is absorbed: the string form
is empty and the error is logged, not returned. -/
theorem OIDCUri_oddUri_parsed :
    Config.oddUri.OIDCUri =
      (some
        { Path := str "not a valid uri"
          RawPath := str "not a valid uri"
          RawQuery := str "??::" }, []) ∧
    url.URL.String Config.oddUri.OIDCUri.1 = .ok (str "not%20a%20valid%20uri???::") ∧
    (Config.oddUri.setOIDCUri (str "not a valid uri:???::")).OIDCUri =
      (some {}, [⟨"oidc: failed to parse issuer URI (%s)",
        ⟨"parse", str "not a valid uri:???::",
          .New "first path segment in URL cannot contain colon"⟩⟩]) ∧
    url.URL.String (Config.oddUri.setOIDCUri (str "not a valid uri:???::")).OIDCUri.1
      = .ok [] := by
  decide

/-- C10: when the option `OIDCUri` is empty, `OIDCUri` returns the zero URL: its `Path` is
empty and its string form is empty, nothing is logged, and the `oidc-uri` row of
`OIDCReport`, the first row, has the empty string as its value. -/
theorem OIDCUri_empty_is_zero (c : Config) (h : c.options.OIDCUri = []) :
    c.OIDCUri = (some {}, []) ∧
    (∃ u, c.OIDCUri.1 = some u ∧ u.Path = []) ∧
    url.URL.String c.OIDCUri.1 = .ok [] ∧
    ∃ rows cols, c.OIDCReport.1 = .ok (rows, cols) ∧ rows.head? = some [str "oidc-uri", []] := by
  have hz : c.OIDCUri = (some {}, []) := by
    unfold Config.OIDCUri
    simp only [h, if_true]
  refine ⟨hz, ⟨{}, by rw [hz], rfl⟩, by rw [hz]; exact url.URL.String_zero, ?_⟩
  obtain ⟨uri, huri, hr⟩ := c.OIDCReport_eq
  rw [hz, url.URL.String_zero] at huri
  cases huri
  rw [hr]
  exact ⟨_, _, rfl, rfl⟩

/-- C10, at the configuration in which no option is set. -/
theorem OIDCUri_empty_is_zero_witness :
    Config.unset.OIDCUri = (some {}, []) ∧
    (∃ u, Config.unset.OIDCUri.1 = some u ∧ u.Path = []) ∧
    url.URL.String Config.unset.OIDCUri.1 = .ok [] ∧
    ∃ rows cols, Config.unset.OIDCReport.1 = .ok (rows, cols) ∧
      rows.head? = some [str "oidc-uri", []] :=
  OIDCUri_empty_is_zero Config.unset (by decide)

/-- C11: when the option `OIDCUri` is a non-empty string of ASCII letters, such as `test`,
`OIDCUri` returns a URL whose `Path` is the option, with empty scheme and host, and whose
string form is the option; after the option is reset to the empty string the string form
of `OIDCUri()` is empty again. -/
theorem OIDCUri_letters_is_path (c : Config) (hne : c.options.OIDCUri ≠ [])
    (h : ∀ b ∈ c.options.OIDCUri, isASCIILetter b) :
    c.OIDCUri = (some { Path := c.options.OIDCUri }, []) ∧
    (∃ u, c.OIDCUri.1 = some u ∧ u.Path = c.options.OIDCUri ∧ u.Scheme = [] ∧ u.Host = []) ∧
    url.URL.String c.OIDCUri.1 = .ok c.options.OIDCUri ∧
    url.URL.String (c.setOIDCUri []).OIDCUri.1 = .ok [] := by
  have hu : c.OIDCUri = (some { Path := c.options.OIDCUri }, []) := by
    unfold Config.OIDCUri
    simp only [if_neg hne, url.Parse_letters _ hne h]
  refine ⟨hu, ⟨_, by rw [hu], rfl, rfl, rfl⟩, ?_, ?_⟩
  · rw [hu]
    exact url.URL.String_letters _ h
  · have hz : (c.setOIDCUri []).OIDCUri = (some {}, []) := by
      unfold Config.OIDCUri Config.setOIDCUri
      simp
    rw [hz]
    exact url.URL.String_zero

/-- C11, at the steps of `TestConfig_OIDCUri`: the option is set to `test` and then reset
to the empty string. -/
theorem OIDCUri_letters_is_path_witness :
    (Config.unset.setOIDCUri (str "test")).OIDCUri = (some { Path := str "test" }, []) ∧
    (∃ u, (Config.unset.setOIDCUri (str "test")).OIDCUri.1 = some u ∧ u.Path = str "test" ∧
      u.Scheme = [] ∧ u.Host = []) ∧
    url.URL.String (Config.unset.setOIDCUri (str "test")).OIDCUri.1 = .ok (str "test") ∧
    url.URL.String ((Config.unset.setOIDCUri (str "test")).setOIDCUri []).OIDCUri.1 = .ok [] :=
  OIDCUri_letters_is_path (Config.unset.setOIDCUri (str "test")) (by decide) (by decide)

/-- C12: the passthrough accessors return their option unchanged: `OIDCClient`,
`OIDCSecret`, `OIDCInsecure`, `OIDCRegister`, `OIDCRedirect`, `OIDCProvider` and
`OIDCProviderIcon` return the options of the same name, and the provider name and icon of
a configuration in which they are not set are the empty string. -/
theorem OIDC_passthrough_accessors (c : Config) :
    c.OIDCClient = c.options.OIDCClient ∧
    c.OIDCSecret = c.options.OIDCSecret ∧
    c.OIDCInsecure = c.options.OIDCInsecure ∧
    c.OIDCRegister = c.options.OIDCRegister ∧
    c.OIDCRedirect = c.options.OIDCRedirect ∧
    c.OIDCProvider = c.options.OIDCProvider ∧
    c.OIDCProviderIcon = c.options.OIDCProviderIcon ∧
    Config.unset.OIDCProvider = [] ∧ Config.unset.OIDCProviderIcon = [] :=
  ⟨rfl, rfl, rfl, rfl, rfl, rfl, rfl, rfl, rfl⟩

/-- C12, at a configuration with all nine options set. -/
theorem OIDC_passthrough_accessors_witness :
    Config.allSet.OIDCClient = str "abc" ∧ Config.allSet.OIDCSecret = str "xyz123" ∧
    Config.allSet.OIDCInsecure = true ∧ Config.allSet.OIDCRegister = true ∧
    Config.allSet.OIDCRedirect = true ∧ Config.allSet.OIDCProvider = str "idp" ∧
    Config.allSet.OIDCProviderIcon = str "/icon.svg" := by
  obtain ⟨h1, h2, h3, h4, h5, h6, h7, -⟩ := OIDC_passthrough_accessors Config.allSet
  rw [h1, h2, h3, h4, h5, h6, h7]
  decide

/-- C13: the doc comment of `OIDCSecret` says that it returns the Client ID, the value
`OIDCClient` returns; the code returns the option `OIDCSecret` instead: with the client ID
`abc` and the secret `xyz123`, `OIDCSecret` returns `xyz123`, which is not what
`OIDCClient` returns. -/
theorem OIDCSecret_differs_from_OIDCClient :
    Config.enabled.OIDCSecret = str "xyz123" ∧ Config.enabled.OIDCClient = str "abc" ∧
    decide (Config.enabled.OIDCSecret = Config.enabled.OIDCClient) = false := by
  decide

/-- What `OIDCSecret` does: it returns the option `OIDCSecret`, the client secret, whatever
the client ID is, so it returns the same value as `OIDCClient` only when the two options
hold the same value. -/
theorem OIDCSecret_returns_secret_option (c : Config) :
    c.OIDCSecret = c.options.OIDCSecret ∧
    (∀ client : GoString,
      Config.OIDCSecret { c with options := { c.options with OIDCClient := client } }
        = c.OIDCSecret) ∧
    (c.OIDCSecret = c.OIDCClient ↔ c.options.OIDCSecret = c.options.OIDCClient) :=
  ⟨rfl, fun _ => rfl, Iff.rfl⟩

/-- C14: no operation changes the options: every accessor and `OIDCReport`, as an
operation on the program state, leaves the configuration with its nine option fields as it
was, and a second call returns the same result; the ten accessors other than `OIDCUri`
leave the whole state as it was, `OIDCUri` and `OIDCReport` only append the record of a
parse error to the log; every operation returns what the function of the configuration
returns. -/
theorem OIDC_operations_read_only :
    ReadsConfig Call.OIDCEnabled ∧ ReadsConfig Call.OIDCUri ∧ ReadsConfig Call.OIDCInsecure ∧
    ReadsConfig Call.OIDCClient ∧ ReadsConfig Call.OIDCSecret ∧ ReadsConfig Call.OIDCScopes ∧
    ReadsConfig Call.OIDCRegister ∧ ReadsConfig Call.OIDCRedirect ∧
    ReadsConfig Call.OIDCProvider ∧ ReadsConfig Call.OIDCProviderIcon ∧
    ReadsConfig Call.OIDCReport ∧
    (∀ w : World,
      Call.OIDCEnabled w = (w.config.OIDCEnabled, w) ∧
      Call.OIDCInsecure w = (w.config.OIDCInsecure, w) ∧
      Call.OIDCClient w = (w.config.OIDCClient, w) ∧
      Call.OIDCSecret w = (w.config.OIDCSecret, w) ∧
      Call.OIDCScopes w = (w.config.OIDCScopes, w) ∧
      Call.OIDCRegister w = (w.config.OIDCRegister, w) ∧
      Call.OIDCRedirect w = (w.config.OIDCRedirect, w) ∧
      Call.OIDCProvider w = (w.config.OIDCProvider, w) ∧
      Call.OIDCProviderIcon w = (w.config.OIDCProviderIcon, w) ∧
      Call.OIDCUri w = (w.config.OIDCUri.1, { w with log := w.log ++ w.config.OIDCUri.2 }) ∧
      Call.OIDCReport w
        = (w.config.OIDCReport.1, { w with log := w.log ++ w.config.OIDCReport.2 })) := by
  refine ⟨fun w => ⟨rfl, rfl, rfl⟩, ?_, fun w => ⟨rfl, rfl, rfl⟩, fun w => ⟨rfl, rfl, rfl⟩,
    fun w => ⟨rfl, rfl, rfl⟩, ?_, fun w => ⟨rfl, rfl, rfl⟩, fun w => ⟨rfl, rfl, rfl⟩,
    fun w => ⟨rfl, rfl, rfl⟩, fun w => ⟨rfl, rfl, rfl⟩, ?_, ?_⟩
  · intro w
    rw [Call.OIDCUri_refines]
    refine ⟨rfl, rfl, ?_⟩
    rw [Call.OIDCUri_refines]
  · intro w
    rw [Call.OIDCScopes_refines]
    refine ⟨rfl, rfl, ?_⟩
    rw [Call.OIDCScopes_refines]
  · intro w
    rw [Call.OIDCReport_refines]
    refine ⟨rfl, rfl, ?_⟩
    rw [Call.OIDCReport_refines]
  · intro w
    exact ⟨rfl, rfl, rfl, rfl, Call.OIDCScopes_refines w, rfl, rfl, rfl, rfl, Call.OIDCUri_refines w,
      Call.OIDCReport_refines w⟩

/-- C14, at a state whose issuer URI does not parse: `OIDCUri` and `OIDCReport` log the
error and leave the configuration as it was, and the second call returns the same URL. -/
theorem OIDC_operations_read_only_witness :
    (Call.OIDCUri { config := Config.malformedUri, log := [] }).2.config = Config.malformedUri ∧
    (Call.OIDCUri { config := Config.malformedUri, log := [] }).2.log =
      [⟨"oidc: failed to parse issuer URI (%s)",
        ⟨"parse", str ":", .New "missing protocol scheme"⟩⟩] ∧
    (Call.OIDCUri (Call.OIDCUri { config := Config.malformedUri, log := [] }).2).1 =
      (Call.OIDCUri { config := Config.malformedUri, log := [] }).1 ∧
    (Call.OIDCReport { config := Config.malformedUri, log := [] }).2.config
      = Config.malformedUri ∧
    (Call.OIDCReport { config := Config.allSet, log := [] }).2
      = { config := Config.allSet, log := [] } :=
  ⟨(OIDC_operations_read_only.2.1 _).1, by decide, (OIDC_operations_read_only.2.1 _).2.2,
    (OIDC_operations_read_only.2.2.2.2.2.2.2.2.2.2.1 _).1, by decide⟩

/-- C15, as stated, fails: the secret that is the single byte `0xff`, which is not ASCII
and not valid UTF-8, counts as one rune, so the `oidc-secret` row holds one asterisk, as
many as the secret has bytes. -/
theorem OIDCReport_invalid_byte_counts_one :
    (Config.unset.setOIDCSecret [0xff]).OIDCReport.1 = .ok ([
        [str "oidc-uri", []],
        [str "oidc-insecure", str "false"],
        [str "oidc-client", []],
        [str "oidc-secret", str "*"],
        [str "oidc-scopes", str "openid email profile"],
        [str "oidc-register", str "false"],
        [str "oidc-redirect", str "false"],
        [str "oidc-provider", []],
        [str "oidc-provider-icon", []]],
      [str "Name", str "Value"]) ∧
    (str "*").length = (Config.unset.setOIDCSecret [0xff]).OIDCSecret.length ∧
    decide (∀ b ∈ (Config.unset.setOIDCSecret [0xff]).OIDCSecret, b.val < 0x80) = false := by
  decide

/-- C15, amended: redaction counts runes, not bytes. For every secret the number of
asterisks in the `oidc-secret` row is the number of runes of the secret, at most the number
of bytes, and equal to it when every byte is ASCII. For every secret that is the UTF-8
encoding of a text it is the number of code points of the text, equal to the number of
bytes exactly when every character is ASCII and smaller when the text has a character that
is not ASCII, which takes two or more bytes and yields one asterisk. A first byte that does
not begin the well-formed encoding of a code point that is not ASCII (a byte from `0x80` to
`0xC1` or from `0xF5` to `0xFF`, or the first byte of a truncated, overlong or surrogate
sequence) yields one asterisk by itself, and the count goes on at the next byte. -/
theorem OIDCReport_secret_runes_not_bytes (c : Config) :
    ∃ rows cols value, c.OIDCReport.1 = .ok (rows, cols) ∧
      rows[3]? = some [str "oidc-secret", value] ∧
      value.length = utf8.RuneCountInString c.OIDCSecret ∧
      value.length ≤ c.OIDCSecret.length ∧
      ((∀ b ∈ c.OIDCSecret, b.val < 0x80) → value.length = c.OIDCSecret.length) ∧
      (∀ t : String, c.OIDCSecret = GoString.ofText t →
        value.length = t.length ∧
        (value.length = c.OIDCSecret.length ↔ ∀ ch ∈ t.data, ch.toNat < 0x80) ∧
        ((∃ ch ∈ t.data, 0x80 ≤ ch.toNat) → value.length < c.OIDCSecret.length)) ∧
      (∀ (v : Nat) (rest : GoString), (v < 0xD800 ∨ (0xDFFF < v ∧ v < 0x110000)) →
        c.OIDCSecret = utf8.AppendRune [] v ++ rest →
        value.length = 1 + utf8.RuneCountInString rest) ∧
      (∀ (b : Byte) (rest : GoString), c.OIDCSecret = b :: rest →
        (¬ ∃ v tail, 0x80 ≤ v ∧ (v < 0xD800 ∨ (0xDFFF < v ∧ v < 0x110000)) ∧
          b :: rest = utf8.AppendRune [] v ++ tail) →
        value.length = 1 + utf8.RuneCountInString rest) ∧
      (∀ (b : Byte) (rest : GoString), c.OIDCSecret = b :: rest →
        ((0x80 ≤ b.val ∧ b.val < 0xC2) ∨ 0xF4 < b.val) →
        value.length = 1 + utf8.RuneCountInString rest) := by
  obtain ⟨uri, -, h⟩ := c.OIDCReport_eq
  rw [h]
  refine ⟨_, _, _, rfl, rfl, ?_, ?_, ?_, ?_, ?_, ?_, ?_⟩
  · rw [List.length_replicate]; rfl
  · rw [List.length_replicate]
    exact utf8.RuneCountInString_le_length _
  · intro hascii
    rw [List.length_replicate]
    exact utf8.RuneCountInString_ascii _ hascii
  · intro t ht
    simp only [Config.OIDCSecret] at ht ⊢
    obtain ⟨h1, h2, h3⟩ := GoString.ofText_length t
    rw [List.length_replicate, ht, h1]
    refine ⟨rfl, ?_, ?_⟩
    · rw [← h3]
      exact eq_comm
    · rintro ⟨ch, hch, hge⟩
      have hne : (GoString.ofText t).length ≠ t.length := by
        intro he
        have := h3.1 he ch hch
        omega
      omega
  · intro v rest hv hs
    simp only [Config.OIDCSecret] at hs
    rw [List.length_replicate, hs]
    exact utf8.RuneCountInString_AppendRune v hv rest
  · intro b rest hs hno
    simp only [Config.OIDCSecret] at hs
    rw [List.length_replicate, hs]
    exact utf8.RuneCountInString_cons_single b rest hno
  · intro b rest hs hb
    simp only [Config.OIDCSecret] at hs
    rw [List.length_replicate, hs]
    exact utf8.RuneCountInString_cons_invalid b rest hb

/-- C15 amended, at the secret `héllo€`: 6 asterisks for 9 bytes; at the secret `xyz123`:
6 asterisks for 6 bytes; and at the secret of the two bytes `0xC3 0x41`, a first byte
without its continuation byte and the letter `A`: 2 asterisks for 2 bytes. -/
theorem OIDCReport_secret_runes_not_bytes_witness :
    (∃ rows cols value,
      (Config.enabled.setOIDCSecret (str "héllo€")).OIDCReport.1 = .ok (rows, cols) ∧
      rows[3]? = some [str "oidc-secret", value] ∧ value.length = 6 ∧
      (str "héllo€").length = 9) ∧
    (∃ rows cols value, Config.enabled.OIDCReport.1 = .ok (rows, cols) ∧
      rows[3]? = some [str "oidc-secret", value] ∧ value.length = 6 ∧
      (str "xyz123").length = 6) ∧
    (∃ rows cols value,
      (Config.enabled.setOIDCSecret [0xC3, 0x41]).OIDCReport.1 = .ok (rows, cols) ∧
      rows[3]? = some [str "oidc-secret", value] ∧ value.length = 2) ∧
    (∃ rows cols value,
      (Config.enabled.setOIDCSecret [0xE2, 0x82]).OIDCReport.1 = .ok (rows, cols) ∧
      rows[3]? = some [str "oidc-secret", value] ∧ value.length = 2) ∧
    (∃ rows cols value,
      (Config.enabled.setOIDCSecret [0xff, 0x80]).OIDCReport.1 = .ok (rows, cols) ∧
      rows[3]? = some [str "oidc-secret", value] ∧ value.length = 2) := by
  refine ⟨?_, ?_, ?_, ?_, ?_⟩
  · obtain ⟨rows, cols, value, h, hrow, -, -, -, ht, -⟩ :=
      OIDCReport_secret_runes_not_bytes (Config.enabled.setOIDCSecret (str "héllo€"))
    exact ⟨rows, cols, value, h, hrow, (ht "héllo€" rfl).1, by decide⟩
  · obtain ⟨rows, cols, value, h, hrow, -, -, -, ht, -⟩ :=
      OIDCReport_secret_runes_not_bytes Config.enabled
    exact ⟨rows, cols, value, h, hrow, (ht "xyz123" rfl).1, by decide⟩
  · obtain ⟨rows, cols, value, h, hrow, hcount, -⟩ :=
      OIDCReport_secret_runes_not_bytes (Config.enabled.setOIDCSecret [0xC3, 0x41])
    exact ⟨rows, cols, value, h, hrow, by rw [hcount]; decide⟩
  · obtain ⟨rows, cols, value, h, hrow, hcount, -⟩ :=
      OIDCReport_secret_runes_not_bytes (Config.enabled.setOIDCSecret [0xE2, 0x82])
    exact ⟨rows, cols, value, h, hrow, by rw [hcount]; decide⟩
  · obtain ⟨rows, cols, value, h, hrow, -, -, -, -, -, -, hinv⟩ :=
      OIDCReport_secret_runes_not_bytes (Config.enabled.setOIDCSecret [0xff, 0x80])
    refine ⟨rows, cols, value, h, hrow, ?_⟩
    rw [hinv 0xff [0x80] rfl (Or.inr (by decide)),
      utf8.RuneCountInString_cons_invalid 0x80 [] (Or.inl (by decide))]
    rfl

/-- C16: `OIDCEnabled` does not depend on whether the issuer URI parses: with the issuer
URI `:` and a client ID and secret set, `OIDCEnabled` returns true while `OIDCUri` returns
the zero URL, whose string form is empty; and two configurations that differ only in their
issuer URIs, both non-empty, get the same result from `OIDCEnabled`. -/
theorem OIDCEnabled_ignores_uri_validity :
    Config.malformedUri.OIDCEnabled = true ∧
    Config.malformedUri.OIDCUri.1 = some {} ∧
    url.URL.String Config.malformedUri.OIDCUri.1 = .ok [] ∧
    (∀ (c : Config) (uri₁ uri₂ : GoString), uri₁ ≠ [] → uri₂ ≠ [] →
      (c.setOIDCUri uri₁).OIDCEnabled = (c.setOIDCUri uri₂).OIDCEnabled) := by
  refine ⟨by decide, by decide, by decide, ?_⟩
  intro c uri₁ uri₂ h₁ h₂
  simp [Config.OIDCEnabled, Config.setOIDCUri, h₁, h₂]

/-- C16, at the issuer URIs `:` and `https://idp.example.com`. -/
theorem OIDCEnabled_ignores_uri_validity_witness :
    (Config.enabled.setOIDCUri (str ":")).OIDCEnabled
      = (Config.enabled.setOIDCUri (str "https://idp.example.com")).OIDCEnabled ∧
    (Config.enabled.setOIDCUri (str ":")).OIDCEnabled = true :=
  ⟨OIDCEnabled_ignores_uri_validity.2.2.2 Config.enabled _ _ (by decide) (by decide),
    by decide⟩

/-- C17: the value of the `oidc-secret` row of `OIDCReport` equals `OIDCSecret()` if and
only if the secret consists solely of `*` bytes, the empty secret included; for every
other secret the redacted value differs from the secret. -/
theorem OIDCReport_secret_value_eq_iff_asterisks (c : Config) :
    ∃ rows cols value, c.OIDCReport.1 = .ok (rows, cols) ∧
      rows[3]? = some [str "oidc-secret", value] ∧
      (value = c.OIDCSecret ↔ ∀ b ∈ c.OIDCSecret, b = chr '*') ∧
      (c.OIDCSecret = [] → value = c.OIDCSecret) ∧
      ((∃ b ∈ c.OIDCSecret, b ≠ chr '*') → value ≠ c.OIDCSecret) := by
  obtain ⟨uri, -, h⟩ := c.OIDCReport_eq
  rw [h]
  have hiff : List.replicate (utf8.RuneCountInString c.options.OIDCSecret) (chr '*')
      = c.OIDCSecret ↔ ∀ b ∈ c.OIDCSecret, b = chr '*' := by
    simp only [Config.OIDCSecret]
    constructor
    · intro he b hb
      rw [← he] at hb
      exact List.eq_of_mem_replicate hb
    · intro hall
      have hs : c.options.OIDCSecret = List.replicate c.options.OIDCSecret.length (chr '*') :=
        List.eq_replicate_of_mem hall
      have hcount : utf8.RuneCountInString c.options.OIDCSecret
          = c.options.OIDCSecret.length :=
        utf8.RuneCountInString_ascii _ (fun b hb => by rw [hall b hb]; decide)
      rw [hcount]
      exact hs.symm
  refine ⟨_, _, _, rfl, rfl, hiff, ?_, ?_⟩
  · intro he
    exact hiff.2 (by rw [he]; intro b hb; cases hb)
  · rintro ⟨b, hb, hne⟩ he
    exact hne (hiff.1 he b hb)

/-- C17, at the secrets `***`, which the redaction leaves as it is, and `xyz123`, which it
changes. -/
theorem OIDCReport_secret_value_eq_iff_asterisks_witness :
    (Config.enabled.setOIDCSecret (str "***")).OIDCReport.1 = .ok ([
        [str "oidc-uri", str "https://idp.example.com"],
        [str "oidc-insecure", str "false"],
        [str "oidc-client", str "abc"],
        [str "oidc-secret", (Config.enabled.setOIDCSecret (str "***")).OIDCSecret],
        [str "oidc-scopes", str "openid email profile"],
        [str "oidc-register", str "false"],
        [str "oidc-redirect", str "false"],
        [str "oidc-provider", []],
        [str "oidc-provider-icon", []]],
      [str "Name", str "Value"]) ∧
    (∃ rows cols value, Config.enabled.OIDCReport.1 = .ok (rows, cols) ∧
      rows[3]? = some [str "oidc-secret", value] ∧ value ≠ Config.enabled.OIDCSecret) := by
  refine ⟨by decide, ?_⟩
  obtain ⟨rows, cols, value, h, hrow, -, -, hne⟩ :=
    OIDCReport_secret_value_eq_iff_asterisks Config.enabled
  exact ⟨rows, cols, value, h, hrow, hne ⟨chr 'x', by decide, by decide⟩⟩

/-- C18: `OIDCScopes` is never the empty string, and the substitution of the default is
idempotent: a configuration whose option `OIDCScopes` is set to what `OIDCScopes()`
returns, returns that same value from `OIDCScopes()`. -/
theorem OIDCScopes_nonempty_idempotent (c : Config) :
    c.OIDCScopes ≠ [] ∧ (c.setOIDCScopes c.OIDCScopes).OIDCScopes = c.OIDCScopes := by
  have hne : c.OIDCScopes ≠ [] := by
    unfold Config.OIDCScopes
    split
    · decide
    · assumption
  refine ⟨hne, ?_⟩
  show (if c.OIDCScopes = [] then OIDCDefaultScopes else c.OIDCScopes) = c.OIDCScopes
  rw [if_neg hne]

/-- C18, at the configuration in which no option is set and at one with scopes set. -/
theorem OIDCScopes_nonempty_idempotent_witness :
    (Config.unset.setOIDCScopes Config.unset.OIDCScopes).OIDCScopes
      = str "openid email profile" ∧
    (Config.allSet.setOIDCScopes Config.allSet.OIDCScopes).OIDCScopes = str "openid" := by
  rw [(OIDCScopes_nonempty_idempotent Config.unset).2,
    (OIDCScopes_nonempty_idempotent Config.allSet).2]
  decide
